import Mathlib

/-!
Admission webhook `cluster-cni-wh-hack`: embedding of `main.go`.

The handler `serve`, the diff packaging `getPatch` and the mutation rule
`mutateClusterCNI` are translated from `main.go`.  The program never inspects
byte strings itself: it only hands them from one library call to the next.
The embedding is therefore generic in the type `β` of byte strings and in the
part `ρ` of a cluster the program never reads, and every library call
(`encoding/json`, `jsonpatch.CreatePatch`, `resp.Write`) is a field of `Lib`.

`specLib` is one concrete library: JSON documents as trees, the envelope codec
with the leniency of `encoding/json`, and the cluster codec and the diff engine
as section 4 of the specification describes them.
-/

set_option autoImplicit false

namespace ClusterCNI

/-! ## JSON documents -/

/-- A JSON value.  The members of an object are kept as an association list. -/
inductive Json where
  | null
  | bool (b : Bool)
  | num (n : Int)
  | str (s : String)
  | arr (xs : List Json)
  | obj (fs : List (String × Json))

/-- Members of a JSON object. -/
abbrev Fields := List (String × Json)

/-- Lexicographic comparison of two character sequences by code point. -/
def ltChars : List Char → List Char → Bool
  | [], [] => false
  | [], _ :: _ => true
  | _ :: _, [] => false
  | a :: as, b :: bs =>
    if a.toNat < b.toNat then true
    else if b.toNat < a.toNat then false
    else ltChars as bs

/-- Strict order on member names. -/
def keyLt (a b : String) : Bool := ltChars a.data b.data

mutual
/-- Structural equality of two JSON values. -/
def Json.same : Json → Json → Bool
  | .null, .null => true
  | .bool a, .bool b => a == b
  | .num a, .num b => a == b
  | .str a, .str b => a == b
  | .arr xs, .arr ys => Json.sameItems xs ys
  | .obj fs, .obj gs => Json.sameFields fs gs
  | _, _ => false
/-- Structural equality of two arrays. -/
def Json.sameItems : List Json → List Json → Bool
  | [], [] => true
  | x :: xs, y :: ys => Json.same x y && Json.sameItems xs ys
  | _, _ => false
/-- Structural equality of two member lists. -/
def Json.sameFields : Fields → Fields → Bool
  | [], [] => true
  | (k, x) :: xs, (l, y) :: ys => k == l && Json.same x y && Json.sameFields xs ys
  | _, _ => false
end

/-- Every name of `fs` is strictly above `k`. -/
def above (k : String) : Fields → Bool
  | [] => true
  | (l, _) :: _ => keyLt k l

mutual
/-- A JSON value is canonical when the members of every object in it are listed
in strictly increasing name order (so no name occurs twice).  A canonical tree
stands for a byte string up to layout and member order. -/
def Json.canonical : Json → Bool
  | .arr xs => Json.canonicalItems xs
  | .obj fs => Json.canonicalFields fs
  | _ => true
/-- All elements of an array are canonical. -/
def Json.canonicalItems : List Json → Bool
  | [] => true
  | x :: xs => Json.canonical x && Json.canonicalItems xs
/-- The members are strictly increasing and their values canonical. -/
def Json.canonicalFields : Fields → Bool
  | [] => true
  | (k, v) :: fs => above k fs && Json.canonical v && Json.canonicalFields fs
end

/-- The names of the members are strictly increasing. -/
def ascending : Fields → Bool
  | [] => true
  | (k, _) :: fs => above k fs && ascending fs

/-- Value of member `k`, if present. -/
def lookup (k : String) : Fields → Option Json
  | [] => none
  | (l, v) :: fs => if l = k then some v else lookup k fs

/-- Set member `k` to `v`: overwrite it when present, otherwise insert it at its
place in name order. -/
def put (k : String) (v : Json) : Fields → Fields
  | [] => [(k, v)]
  | (l, w) :: fs =>
    if l = k then (k, v) :: fs
    else if keyLt k l then (k, v) :: (l, w) :: fs
    else (l, w) :: put k v fs

/-- Drop member `k`. -/
def erase (k : String) : Fields → Fields
  | [] => []
  | (l, w) :: fs => if l = k then fs else (l, w) :: erase k fs

/-! ## Patches -/

/-- The three edit operations the diff engine emits. -/
inductive OpKind where
  | add
  | remove
  | replace
  deriving DecidableEq

/-- One edit operation.  `path` lists the reference tokens of the JSON pointer:
`["spec", "cniPlugin"]` is the pointer `/spec/cniPlugin`. -/
structure Operation where
  op : OpKind
  path : List String
  value : Option Json

/-- Address an operation one level further down, below member `k`. -/
def Operation.under (k : String) (o : Operation) : Operation :=
  { o with path := k :: o.path }

/-! ## Data model of the admission review (`k8s.io/api/admission/v1`) -/

/-- A Go `error` value, by its message. -/
abbrev GoError := String

/-- Outcome of running Go code that may dereference a nil pointer. -/
inductive Run (α : Type) where
  | ret (a : α)
  | panic

/-- The `admv1.PatchType` string type. -/
abbrev PatchType := String

/-- The constant `admv1.PatchTypeJSONPatch`. -/
def PatchTypeJSONPatch : PatchType := "JSONPatch"

/-- The constant `http.StatusOK`. -/
def StatusOK : Nat := 200

/-- The part of `admv1.AdmissionRequest` the program touches; `object` is
`Object.Raw`. -/
structure AdmissionRequest (β : Type) where
  uid : String
  namespace_ : String
  name : String
  object : β

/-- The fields of `metav1.Status` the handler fills in. -/
structure Status where
  status : String
  message : String
  code : Nat
  deriving DecidableEq

/-- The type `admv1.AdmissionResponse`; `patch` and `patchType` are nil when `none`. -/
structure AdmissionResponse (β : Type) where
  uid : String
  allowed : Bool
  result : Option Status
  patch : Option β
  patchType : Option PatchType

/-- The type `admv1.AdmissionReview`; `request` and `response` are pointers. -/
structure AdmissionReview (β : Type) where
  kind : String
  apiVersion : String
  request : Option (AdmissionRequest β)
  response : Option (AdmissionResponse β)

/-! ## The cluster object (`k8c.io/kubermatic/v2/pkg/crd/kubermatic/v1`) -/

/-- The type `v1.CNIPluginSettings`: the plugin selector with its type and version. -/
structure CNIPluginSettings where
  type : String
  version : String
  deriving DecidableEq

/-- The parts of `v1.Cluster` that `mutateClusterCNI` reads or writes: the
label map, the pointer `Spec.CNIPlugin`, and everything else (`rest`). -/
structure Cluster (ρ : Type) where
  labels : List (String × String)
  cniPlugin : Option CNIPluginSettings
  rest : ρ

/-- Indexing a Go `map[string]string`: the empty string for a missing key. -/
def labelOf (labels : List (String × String)) (k : String) : String :=
  match labels with
  | [] => ""
  | (l, v) :: ls => if l = k then v else labelOf ls k

/-! ## Library calls -/

/-- The library calls `main.go` makes, over byte strings of type `β`. -/
structure Lib (β ρ : Type) where
  /-- The nil byte slice. -/
  nilBytes : β
  /-- The call `json.Unmarshal(body, reqReview)`. -/
  unmarshalReview : β → Except GoError (AdmissionReview β)
  /-- The call `json.Unmarshal(raw, cluster)`. -/
  unmarshalCluster : β → Except GoError (Cluster ρ)
  /-- The call `json.Marshal(cluster)`. -/
  marshalCluster : Cluster ρ → Except GoError β
  /-- The call `jsonpatch.CreatePatch(old, updated)`. -/
  createPatch : β → β → Except GoError (List Operation)
  /-- The call `json.Marshal(patchObj)`. -/
  marshalPatch : List Operation → Except GoError β
  /-- The call `json.Marshal(respReview)`. -/
  marshalReview : AdmissionReview β → Except GoError β
  /-- The call `resp.Write(respBytes)`: whether the transport accepted the bytes. -/
  write : β → Except GoError Unit

/-! ## The program -/

/-- The type `checkFn`: a mutation rule works on the review in place and returns
an error or nil; here it returns the review as it left it together with the
error. -/
abbrev checkFn (β : Type) := AdmissionReview β → Run (AdmissionReview β × Option GoError)

/-- The function `getPatch`: diff the object bytes of the untouched copy against
those of the review the rule worked on. -/
def getPatch {β ρ : Type} (L : Lib β ρ) (old updated : AdmissionReview β) :
    Run (Except GoError (Option β × Option PatchType)) :=
  match old.request, updated.request with
  | some o, some u =>
    match L.createPatch o.object u.object with
    | .error _ => .ret (.error "failed to jsonpatch")
    | .ok patchObj =>
      if patchObj.length = 0 then .ret (.ok (none, none))
      else
        match L.marshalPatch patchObj with
        | .error _ => .ret (.error "failed to marshal json")
        | .ok patch => .ret (.ok (some patch, some PatchTypeJSONPatch))
  | _, _ => .panic

/-- The method `mutateClusterCNI`. -/
def mutateClusterCNI {β ρ : Type} (L : Lib β ρ) : checkFn β := fun ar =>
  match ar.request with
  | none => .panic
  | some rq =>
    match L.unmarshalCluster rq.object with
    | .error _ => .ret (ar, some "failed to parse request raw object")
    | .ok cluster =>
      let plugin : CNIPluginSettings := { type := "", version := "" }
      let plugin : CNIPluginSettings :=
        if labelOf cluster.labels "hackaton-cni" ≠ "" then
          { plugin with type := labelOf cluster.labels "hackaton-cni" }
        else plugin
      let plugin : CNIPluginSettings :=
        if labelOf cluster.labels "hackaton-cni-version" ≠ "" then
          { plugin with version := labelOf cluster.labels "hackaton-cni-version" }
        else plugin
      let cluster : Cluster ρ := { cluster with cniPlugin := some plugin }
      if labelOf cluster.labels "hackaton-cni" = "" ∧
          labelOf cluster.labels "hackaton-cni-version" = "" then
        .ret (ar, none)
      else
        match L.marshalCluster cluster with
        | .error _ =>
          .ret ({ ar with request := some { rq with object := L.nilBytes } },
            some "failed to compress request raw object")
        | .ok raw => .ret ({ ar with request := some { rq with object := raw } }, none)

/-- An incoming `http.Request`: `body` is `none` for a nil `Body` and otherwise
what `ioutil.ReadAll` returns; `contentType` is `Header.Get("Content-Type")`. -/
structure Request (β : Type) where
  body : Option (Except GoError β)
  contentType : String

/-- What one run of `serve` did: the reviews `check` was called on, the review
and bytes handed to `resp.Write` (if it was called), and whether the run ended
in a nil-pointer panic. -/
structure Served (β : Type) where
  checkCalls : List (AdmissionReview β)
  written : Option (AdmissionReview β × β)
  panicked : Bool

/-- The response review `serve` prepares (lines 123 to 137). -/
def respReviewFor {β : Type} (uid : String) : AdmissionReview β :=
  { kind := "AdmissionReview"
    apiVersion := "admission.k8s.io/v1"
    request := none
    response := some
      { uid := uid
        allowed := true
        result := some { status := "Success", message := "Request permitted", code := StatusOK }
        patch := none
        patchType := none } }

/-- Lines 149 to 160 of `serve`: serialize the response, write it, and log the
name of the request (which dereferences `reqReview.Request` once more). -/
def finish {β ρ : Type} (L : Lib β ρ) (calls : List (AdmissionReview β))
    (reqReview respReview : AdmissionReview β) : Served β :=
  match L.marshalReview respReview with
  | .error _ => { checkCalls := calls, written := none, panicked := false }
  | .ok respBytes =>
    match L.write respBytes with
    | .error _ => { checkCalls := calls, written := some (respReview, respBytes), panicked := false }
    | .ok _ =>
      { checkCalls := calls, written := some (respReview, respBytes),
        panicked := reqReview.request.isNone }

/-- The function `serve`. -/
def serve {β ρ : Type} (L : Lib β ρ) (req : Request β) (check : checkFn β) : Served β :=
  match req.body with
  | none => { checkCalls := [], written := none, panicked := false }
  | some reader =>
    if req.contentType ≠ "application/json" then
      { checkCalls := [], written := none, panicked := false }
    else
      match reader with
      | .error _ => { checkCalls := [], written := none, panicked := false }
      | .ok body =>
        match L.unmarshalReview body with
        | .error _ => { checkCalls := [], written := none, panicked := false }
        | .ok reqReview =>
          match reqReview.request with
          | none => { checkCalls := [], written := none, panicked := true }
          | some rq =>
            let respReview : AdmissionReview β := respReviewFor rq.uid
            let reqReviewCopy := reqReview
            match check reqReview with
            | .panic => { checkCalls := [reqReview], written := none, panicked := true }
            | .ret (reqReview, none) =>
              match getPatch L reqReviewCopy reqReview with
              | .panic => { checkCalls := [reqReviewCopy], written := none, panicked := true }
              | .ret (.error _) =>
                { checkCalls := [reqReviewCopy], written := none, panicked := false }
              | .ret (.ok (patch, patchType)) =>
                finish L [reqReviewCopy] reqReview
                  { respReview with response := respReview.response.map fun r =>
                      { r with patch := patch, patchType := patchType } }
            | .ret (reqReview, some _) => finish L [reqReviewCopy] reqReview respReview

/-! ## A concrete library: JSON trees, codec and diff engine -/

/-- A byte string: `json j` is the JSON text that spells the canonical tree `j`,
listing the members of every object in the order of the tree, in any layout;
`invalid` is a byte string that is no JSON text (the nil slice included).  A
tree that is not canonical stands for no byte string; every decoder rejects
it. -/
inductive Doc where
  | invalid
  | json (j : Json)

/-- Decoding of a Go string field by `encoding/json`: a missing or null member
leaves the zero value, a string is taken, anything else is a type error. -/
def strField (k : String) (fs : Fields) : Except GoError String :=
  match lookup k fs with
  | none => .ok ""
  | some .null => .ok ""
  | some (.str s) => .ok s
  | some _ => .error "json: cannot unmarshal into Go value of type string"

/-- Simple case folding of a code point, as far as it can reach an ASCII letter:
the upper-case ASCII letters, the long s (U+017F) and the Kelvin sign
(U+212A). -/
def foldCode (n : Nat) : Nat :=
  if 65 ≤ n ∧ n ≤ 90 then n + 32
  else if n = 0x17F then 115
  else if n = 0x212A then 107
  else n

/-- A member name with every code point folded. -/
def foldName (s : String) : List Nat :=
  s.data.map fun c => foldCode c.toNat

/-- The struct field a member name selects, as `encoding/json` matches names:
the field of exactly that name, otherwise the first field whose name equals it
up to case; none when the name is unknown (the member is skipped). -/
def findField {α : Type} (fields : List (String × α)) (key : String) : Option (String × α) :=
  match fields.find? fun f => f.1 == key with
  | some f => some f
  | none => fields.find? fun f => foldName f.1 == foldName key

/-- The Go type of a field, as far as `encoding/json` checks a value against it:
a string kind, a bool, an `int32`, an `int64`, a `runtime.RawExtension` (any
value), a `[]byte` (a base64 string), a slice, a string-keyed map, a struct. -/
inductive Shape where
  | str
  | bool
  | int32
  | int64
  | raw
  | bytes
  | list (elem : Shape)
  | dict (elem : Shape)
  | struct (fields : List (String × Shape))

/-- A character of the standard base64 alphabet. -/
def base64Char (c : Char) : Bool :=
  (65 ≤ c.toNat && c.toNat ≤ 90) || (97 ≤ c.toNat && c.toNat ≤ 122) ||
    (48 ≤ c.toNat && c.toNat ≤ 57) || c == '+' || c == '/'

/-- Padded base64 quanta: four alphabet characters each, the last one possibly
ending in one or two `=`. -/
def base64Quanta : List Char → Bool
  | [] => true
  | [a, b, c, d] =>
    base64Char a && base64Char b &&
      ((c == '=' && d == '=') || (base64Char c && (d == '=' || base64Char d)))
  | a :: b :: c :: d :: rest =>
    base64Char a && base64Char b && base64Char c && base64Char d && base64Quanta rest
  | _ => false

/-- A string `base64.StdEncoding` decodes: padded base64, line breaks ignored. -/
def isBase64 (s : String) : Bool :=
  base64Quanta (s.data.filter fun c => !(c == '\n' || c == '\r'))

mutual
/-- The value can be decoded into a Go value of the given type without an
`UnmarshalTypeError`.  Null is accepted everywhere (it leaves the Go value
alone), and members of a struct that name no field are skipped. -/
def conforms : Shape → Json → Bool
  | _, .null => true
  | .raw, _ => true
  | .str, .str _ => true
  | .bool, .bool _ => true
  | .int32, .num n => decide (-2147483648 ≤ n ∧ n ≤ 2147483647)
  | .int64, .num n => decide (-9223372036854775808 ≤ n ∧ n ≤ 9223372036854775807)
  | .bytes, .str s => isBase64 s
  | .list e, .arr xs => conformsItems e xs
  | .dict e, .obj fs => conformsValues e fs
  | .struct fields, .obj fs => conformsMembers fields fs
  | _, _ => false
/-- All elements of an array conform. -/
def conformsItems : Shape → List Json → Bool
  | _, [] => true
  | e, x :: xs => conforms e x && conformsItems e xs
/-- All values of an object decoded into a map conform. -/
def conformsValues : Shape → Fields → Bool
  | _, [] => true
  | e, (_, v) :: fs => conforms e v && conformsValues e fs
/-- Every member of an object decoded into a struct conforms to the field it
names. -/
def conformsMembers : List (String × Shape) → Fields → Bool
  | _, [] => true
  | fields, (k, v) :: fs =>
    (match findField fields k with
      | none => true
      | some f => conforms f.2 v) && conformsMembers fields fs
end

/-- The types `metav1.GroupVersionKind` and `metav1.GroupVersionResource`. -/
def groupVersionShape (last : String) : Shape :=
  .struct [("group", .str), ("version", .str), (last, .str)]

/-- The type `authenticationv1.UserInfo`. -/
def userInfoShape : Shape :=
  .struct [("username", .str), ("uid", .str), ("groups", .list .str),
    ("extra", .dict (.list .str))]

/-- The type `metav1.Status`. -/
def statusShape : Shape :=
  .struct [("kind", .str), ("apiVersion", .str),
    ("metadata", .struct [("selfLink", .str), ("resourceVersion", .str), ("continue", .str),
      ("remainingItemCount", .int64)]),
    ("status", .str), ("message", .str), ("reason", .str),
    ("details", .struct [("name", .str), ("group", .str), ("kind", .str), ("uid", .str),
      ("causes", .list (.struct [("reason", .str), ("message", .str), ("field", .str)])),
      ("retryAfterSeconds", .int32)]),
    ("code", .int32)]

/-- The type `admv1.AdmissionResponse`. -/
def responseShape : Shape :=
  .struct [("uid", .str), ("allowed", .bool), ("status", statusShape), ("patch", .bytes),
    ("patchType", .str), ("auditAnnotations", .dict .str), ("warnings", .list .str)]

/-- The fields of `admv1.AdmissionRequest`, by JSON name, with their types. -/
def requestFields : List (String × Shape) :=
  [("uid", .str), ("kind", groupVersionShape "kind"),
   ("resource", groupVersionShape "resource"), ("subResource", .str),
   ("requestKind", groupVersionShape "kind"),
   ("requestResource", groupVersionShape "resource"), ("requestSubResource", .str),
   ("name", .str), ("namespace", .str), ("operation", .str), ("userInfo", userInfoShape),
   ("object", .raw), ("oldObject", .raw), ("dryRun", .bool), ("options", .raw)]

/-- The fields of `admv1.AdmissionReview`, by JSON name, with their types (the
inlined `metav1.TypeMeta` first). -/
def reviewFields : List (String × Shape) :=
  [("kind", .str), ("apiVersion", .str), ("request", .struct requestFields),
   ("response", responseShape)]

/-- Store a decoded member in the request: the program reads `uid`, `namespace`,
`name` and `object` (the raw bytes of the value); a null leaves the field as it
is. -/
def storeRequestField (rq : AdmissionRequest Doc) (name : String) (v : Json) :
    AdmissionRequest Doc :=
  match v with
  | .null => rq
  | .str s =>
    if name = "uid" then { rq with uid := s }
    else if name = "namespace" then { rq with namespace_ := s }
    else if name = "name" then { rq with name := s }
    else if name = "object" then { rq with object := Doc.json v }
    else rq
  | _ => if name = "object" then { rq with object := Doc.json v } else rq

/-- Decoding of the members of the `request` object into
`admv1.AdmissionRequest`, in the order of the text: a member that names no field
is skipped, a member of the wrong JSON type is an `UnmarshalTypeError`, a later
member for the same field overwrites an earlier one.  No member is required: a
field without member keeps its zero value (`Object.Raw` stays nil). -/
def decodeRequest : Fields → AdmissionRequest Doc → Except GoError (AdmissionRequest Doc)
  | [], rq => .ok rq
  | (k, v) :: rs, rq =>
    match findField requestFields k with
    | none => decodeRequest rs rq
    | some f =>
      if conforms f.2 v then decodeRequest rs (storeRequestField rq f.1 v)
      else .error "json: cannot unmarshal into Go struct field of v1.AdmissionRequest"

/-- The zero value of `admv1.AdmissionRequest`. -/
def zeroRequest : AdmissionRequest Doc :=
  { uid := "", namespace_ := "", name := "", object := Doc.invalid }

/-- Decoding of the members of the envelope into `admv1.AdmissionReview`, in the
order of the text.  A null `request` sets the pointer to nil, an object is
decoded into the request the pointer holds (a fresh one when nil).  The
`response` member is checked against its type, but the value decoded from it is
not carried: the program never reads `reqReview.Response`. -/
def decodeMembers : Fields → AdmissionReview Doc → Except GoError (AdmissionReview Doc)
  | [], ar => .ok ar
  | (k, v) :: fs, ar =>
    match findField reviewFields k with
    | none => decodeMembers fs ar
    | some f =>
      if f.1 = "request" then
        match v with
        | .null => decodeMembers fs { ar with request := none }
        | .obj rs =>
          match decodeRequest rs (ar.request.getD zeroRequest) with
          | .ok rq => decodeMembers fs { ar with request := some rq }
          | .error e => .error e
        | _ => .error "json: cannot unmarshal into Go struct field AdmissionReview.request"
      else if conforms f.2 v then
        match v with
        | .str s =>
          if f.1 = "kind" then decodeMembers fs { ar with kind := s }
          else if f.1 = "apiVersion" then decodeMembers fs { ar with apiVersion := s }
          else decodeMembers fs ar
        | _ => decodeMembers fs ar
      else .error "json: cannot unmarshal into Go struct field of v1.AdmissionReview"

/-- The call `json.Unmarshal(body, reqReview)` on JSON trees, as `encoding/json`
decodes into the zero `admv1.AdmissionReview`: bytes that are no JSON text and
values that are neither an object nor null are errors, as is every member of
the wrong JSON type (also in `response` and in the fields of the request the
program never reads); member names match exactly or up to case; no member is
required, so a missing `request` leaves a nil pointer and missing `uid` or
`object` leave the zero value. -/
def decodeReview : Doc → Except GoError (AdmissionReview Doc)
  | .invalid => .error "unexpected end of JSON input"
  | .json j =>
    if j.canonical = false then .error "invalid character"
    else
      match j with
      | .null => .ok { kind := "", apiVersion := "", request := none, response := none }
      | .obj fs =>
        decodeMembers fs { kind := "", apiVersion := "", request := none, response := none }
      | _ => .error "json: cannot unmarshal into Go value of type v1.AdmissionReview"

/-- Wire form of a byte-string member: the JSON value it spells (the base64
wrapping of `[]byte` is not modelled). -/
def encodeBytes : Doc → Json
  | .invalid => .null
  | .json j => j

/-- Wire form of a `metav1.Status`. -/
def encodeStatus (s : Status) : Json :=
  .obj [("code", .num s.code), ("message", .str s.message), ("status", .str s.status)]

/-- Set member `k` when a value is there (`omitempty`). -/
def putSome (k : String) (v : Option Json) (fs : Fields) : Fields :=
  match v with
  | none => fs
  | some v => put k v fs

/-- Wire form of an `admv1.AdmissionResponse`. -/
def encodeResponse (r : AdmissionResponse Doc) : Json :=
  .obj (putSome "patch" (r.patch.map encodeBytes)
    (putSome "patchType" (r.patchType.map Json.str)
      (putSome "status" (r.result.map encodeStatus)
        [("allowed", .bool r.allowed), ("uid", .str r.uid)])))

/-- Wire form of an `admv1.AdmissionRequest`. -/
def encodeRequest (r : AdmissionRequest Doc) : Json :=
  .obj [("name", .str r.name), ("namespace", .str r.namespace_),
        ("object", encodeBytes r.object), ("uid", .str r.uid)]

/-- The call `json.Marshal(respReview)` on JSON trees. -/
def encodeReview (r : AdmissionReview Doc) : Doc :=
  .json (.obj (putSome "request" (r.request.map encodeRequest)
    (putSome "response" (r.response.map encodeResponse)
      [("apiVersion", .str r.apiVersion), ("kind", .str r.kind)])))

/-- Escaping of one reference token of a JSON pointer. -/
def escapeToken : List Char → List Char
  | [] => []
  | c :: cs =>
    if c = '~' then '~' :: '0' :: escapeToken cs
    else if c = '/' then '~' :: '1' :: escapeToken cs
    else c :: escapeToken cs

/-- The JSON pointer with the given reference tokens. -/
def pointer : List String → List Char
  | [] => []
  | t :: ts => '/' :: (escapeToken t.data ++ pointer ts)

/-- Name of an edit operation on the wire. -/
def OpKind.name : OpKind → String
  | .add => "add"
  | .remove => "remove"
  | .replace => "replace"

/-- Wire form of one edit operation. -/
def encodeOperation (o : Operation) : Json :=
  .obj (putSome "value" o.value
    [("op", .str o.op.name), ("path", .str (String.mk (pointer o.path)))])

/-- The call `json.Marshal(patchObj)` on JSON trees. -/
def encodePatch (ops : List Operation) : Doc :=
  .json (.arr (ops.map encodeOperation))

/-- Modelled from the spec: the label map of the target object, a JSON object
whose members are all strings. -/
def decodeLabels : Fields → Except GoError (List (String × String))
  | [] => .ok []
  | (k, .str v) :: fs =>
    match decodeLabels fs with
    | .ok ls => .ok ((k, v) :: ls)
    | .error e => .error e
  | _ :: _ => .error "json: cannot unmarshal into Go value of type string"

/-- Modelled from the spec: the plugin selector of the target object, with its
type and version field. -/
def decodePlugin (ps : Fields) : Except GoError CNIPluginSettings :=
  match strField "type" ps, strField "version" ps with
  | .ok t, .ok v => .ok { type := t, version := v }
  | _, _ => .error "json: cannot unmarshal into Go value of type string"

/-- Modelled from the spec: the plugin-configuration sub-section `spec.cniPlugin`
of the target object, absent when `spec` or `cniPlugin` is missing or null. -/
def decodeSpec (fs : Fields) : Except GoError (Option CNIPluginSettings) :=
  match lookup "spec" fs with
  | none => .ok none
  | some .null => .ok none
  | some (.obj ss) =>
    match lookup "cniPlugin" ss with
    | none => .ok none
    | some .null => .ok none
    | some (.obj ps) =>
      match decodePlugin ps with
      | .ok p => .ok (some p)
      | .error e => .error e
    | some _ => .error "json: cannot unmarshal into Go value of type v1.CNIPluginSettings"
  | some _ => .error "json: cannot unmarshal into Go value of type v1.ClusterSpec"

/-- Modelled from the spec: the set of string labels attached to the target
object, read from `metadata.labels` (where every Kubernetes object keeps its
labels); empty when `metadata` or `labels` is missing or null. -/
def decodeMeta (fs : Fields) : Except GoError (List (String × String)) :=
  match lookup "metadata" fs with
  | none => .ok []
  | some .null => .ok []
  | some (.obj ms) =>
    match lookup "labels" ms with
    | none => .ok []
    | some .null => .ok []
    | some (.obj ls) => decodeLabels ls
    | some _ => .error "json: cannot unmarshal into Go value of type map[string]string"
  | some _ => .error "json: cannot unmarshal into Go value of type v1.ObjectMeta"

/-- Modelled from the spec: decoding of the target object (the declaration of
`v1.Cluster` is not part of the repository).  The object is a JSON object with a
set of string labels under `metadata.labels` and the plugin selector under
`spec.cniPlugin`; the document itself is kept as the rest of the cluster. -/
def decodeCluster : Doc → Except GoError (Cluster Json)
  | .invalid => .error "unexpected end of JSON input"
  | .json j =>
    if j.canonical = false then .error "invalid character"
    else
      match j with
      | .obj fs =>
        match decodeMeta fs, decodeSpec fs with
        | .ok labels, .ok plugin => .ok { labels := labels, cniPlugin := plugin, rest := j }
        | .error e, _ => .error e
        | _, .error e => .error e
      | _ => .error "json: cannot unmarshal into Go value of type v1.Cluster"

/-- Members of a JSON object, none for any other value. -/
def Json.members : Json → Fields
  | .obj fs => fs
  | _ => []

/-- Wire form of the plugin selector. -/
def encodePlugin (p : CNIPluginSettings) : Json :=
  .obj [("type", .str p.type), ("version", .str p.version)]

/-- Modelled from the spec: re-serialization of the target object.  The
document the cluster was decoded from is written back with the
plugin-configuration sub-section `spec.cniPlugin` set from the cluster,
constructing `spec` if absent. -/
def encodeCluster (c : Cluster Json) : Doc :=
  let fs := c.rest.members
  let ss := match lookup "spec" fs with
    | some (.obj ss) => ss
    | _ => []
  let ss := match c.cniPlugin with
    | none => erase "cniPlugin" ss
    | some p => put "cniPlugin" (encodePlugin p) ss
  .json (.obj (put "spec" (.obj ss) fs))

/-- One step of the member-wise comparison: member `k` of the original (whose
value is compared by `dv`) against the members `gs` of the target, `more`
comparing the remaining members of the original. -/
def mergeInto (k : String) (dv : Json → List Operation) (more : Fields → List Operation) :
    Fields → List Operation
  | [] => ⟨.remove, [k], none⟩ :: more []
  | (l, w) :: gs =>
    if keyLt k l then ⟨.remove, [k], none⟩ :: more ((l, w) :: gs)
    else if keyLt l k then ⟨.add, [l], some w⟩ :: mergeInto k dv more gs
    else (dv w).map (Operation.under k) ++ more gs

mutual
/-- Modelled from the spec: the diff engine (`jsonpatch.CreatePatch` is not part
of the repository).  A structural patch with path-addressed add, replace and
remove operations: two objects are compared member by member in name order, a
member only in the target is added, a member only in the original is removed, a
member of both is compared recursively; any other pair of values that differ
gives one replace of the whole value (no array-move optimisation). -/
def diff : Json → Json → List Operation
  | .obj fs, b =>
    match b with
    | .obj gs => diffFields fs gs
    | _ => [⟨.replace, [], some b⟩]
  | a, b => if Json.same a b then [] else [⟨.replace, [], some b⟩]
/-- Member-wise comparison of two objects. -/
def diffFields : Fields → Fields → List Operation
  | [], gs => gs.map fun g => ⟨.add, [g.1], some g.2⟩
  | (k, v) :: fs, gs => mergeInto k (fun w => diff v w) (fun gs => diffFields fs gs) gs
end

/-- Modelled from the spec: the contract `diff(originalBytes, mutatedBytes)` of
the diff engine; byte strings that spell no JSON value give
`DiffComputationFailed`. -/
def createPatch : Doc → Doc → Except GoError (List Operation)
  | .json a, .json b =>
    if a.canonical && b.canonical then .ok (diff a b) else .error "Invalid JSON Document"
  | _, _ => .error "Invalid JSON Document"

/-- Apply one edit `(kind, value)` at `path` in a document: `add` sets a member,
`replace` sets an existing member (or the whole document at the empty path),
`remove` drops an existing member. -/
def applyAt (kind : OpKind) (value : Option Json) : List String → Json → Option Json
  | [], _ =>
    match kind with
    | .remove => none
    | _ => value
  | [k], .obj fs =>
    match kind with
    | .add => value.map fun v => .obj (put k v fs)
    | .replace => if (lookup k fs).isSome then value.map fun v => .obj (put k v fs) else none
    | .remove => if (lookup k fs).isSome then some (.obj (erase k fs)) else none
  | k :: p :: ps, .obj fs =>
    match lookup k fs with
    | none => none
    | some child => (applyAt kind value (p :: ps) child).map fun c => .obj (put k c fs)
  | _ :: _, _ => none

/-- Apply one edit operation to a document. -/
def applyOp (o : Operation) (doc : Json) : Option Json :=
  applyAt o.op o.value o.path doc

/-- Modelled from the spec: applying a patch, an ordered sequence of edit
operations, to a document. -/
def applyPatch : List Operation → Json → Option Json
  | [], doc => some doc
  | o :: os, doc =>
    match applyOp o doc with
    | none => none
    | some doc => applyPatch os doc

/-- The concrete library: JSON trees for byte strings, the envelope codec of
`encoding/json`, the cluster codec and the diff engine of the specification, and
a transport that accepts every write. -/
def specLib : Lib Doc Json where
  nilBytes := Doc.invalid
  unmarshalReview := decodeReview
  unmarshalCluster := decodeCluster
  marshalCluster := fun c => .ok (encodeCluster c)
  createPatch := createPatch
  marshalPatch := fun ops => .ok (encodePatch ops)
  marshalReview := fun r => .ok (encodeReview r)
  write := fun _ => .ok ()

/-! ## Example inputs -/

/-- A review whose request carries the given object bytes. -/
def reviewOf (uid : String) (object : Doc) : AdmissionReview Doc :=
  { kind := "AdmissionReview", apiVersion := "admission.k8s.io/v1",
    request := some { uid := uid, namespace_ := "", name := "", object := object },
    response := none }

/-- Request body carrying the given object under `request.object`, with the
request identifier `uid`. -/
def bodyOf (uid : String) (object : Json) : Doc :=
  .json (.obj [("apiVersion", .str "admission.k8s.io/v1"), ("kind", .str "AdmissionReview"),
    ("request", .obj [("object", object), ("uid", .str uid)])])

/-- A JSON request with the given body. -/
def postOf (body : Doc) : Request Doc :=
  { body := some (.ok body), contentType := "application/json" }

/-- An object with an empty label set. -/
def objNoLabels : Json :=
  .obj [("metadata", .obj [("labels", .obj [])]), ("spec", .obj [])]

/-- The object of the concrete scenario: both labels set, empty `spec`. -/
def objBoth : Json :=
  .obj [("metadata", .obj [("labels", .obj [("hackaton-cni", .str "calico"),
      ("hackaton-cni-version", .str "v3.1")])]),
    ("spec", .obj [])]

/-- An object with only the plugin-type label, whose `spec.cniPlugin` already
carries a type and a version. -/
def objTypeOnly : Json :=
  .obj [("metadata", .obj [("labels", .obj [("hackaton-cni", .str "calico")])]),
    ("spec", .obj [("cniPlugin", .obj [("type", .str "canal"), ("version", .str "v3.19")])])]

/-- A body that is valid JSON with a `request` section lacking both the
request identifier and the object bytes. -/
def bodyBare : Doc :=
  .json (.obj [("request", .obj [])])

/-- The object `objBoth` after the mutation rule. -/
def mutatedBoth : Json :=
  .obj [("metadata", .obj [("labels", .obj [("hackaton-cni", .str "calico"),
      ("hackaton-cni-version", .str "v3.1")])]),
    ("spec", .obj [("cniPlugin", .obj [("type", .str "calico"), ("version", .str "v3.1")])])]

/-- The patch of the concrete scenario: one `add` at `/spec/cniPlugin`. -/
def patchBoth : List Operation :=
  [{ op := .add, path := ["spec", "cniPlugin"],
     value := some (.obj [("type", .str "calico"), ("version", .str "v3.1")]) }]

/-- The response review of the concrete scenario. -/
def respBoth : AdmissionReview Doc :=
  { kind := "AdmissionReview"
    apiVersion := "admission.k8s.io/v1"
    request := none
    response := some
      { uid := "u1"
        allowed := true
        result := some { status := "Success", message := "Request permitted", code := 200 }
        patch := some (encodePatch patchBoth)
        patchType := some PatchTypeJSONPatch } }

/-- The object `objTypeOnly` after the mutation rule. -/
def mutatedTypeOnly : Json :=
  .obj [("metadata", .obj [("labels", .obj [("hackaton-cni", .str "calico")])]),
    ("spec", .obj [("cniPlugin", .obj [("type", .str "calico"), ("version", .str "")])])]

/-! ## Theorems about the program, for every library -/

theorem finish_written {β ρ : Type} (L : Lib β ρ) (calls : List (AdmissionReview β))
    (rr r : AdmissionReview β) (bytes : β) (h : L.marshalReview r = .ok bytes) :
    (finish L calls rr r).written = some (r, bytes) := by
  unfold finish
  simp only [h]
  split <;> rfl

theorem finish_written_inv {β ρ : Type} (L : Lib β ρ) (calls : List (AdmissionReview β))
    (rr r r' : AdmissionReview β) (bytes : β)
    (h : (finish L calls rr r).written = some (r', bytes)) :
    r' = r ∧ L.marshalReview r = .ok bytes := by
  unfold finish at h
  split at h
  · simp at h
  · rename_i b hb
    split at h <;> simp at h <;> obtain ⟨h1, h2⟩ := h <;> subst h1 h2 <;> exact ⟨rfl, hb⟩

theorem finish_checkCalls {β ρ : Type} (L : Lib β ρ) (calls : List (AdmissionReview β))
    (rr r : AdmissionReview β) : (finish L calls rr r).checkCalls = calls := by
  unfold finish
  split
  · rfl
  · split <;> rfl

/-- The run of `serve` once the envelope is decoded and carries a request. -/
theorem serve_decoded {β ρ : Type} (L : Lib β ρ) (req : Request β) (check : checkFn β)
    (body : β) (ar : AdmissionReview β) (rq : AdmissionRequest β)
    (hct : req.contentType = "application/json") (hb : req.body = some (.ok body))
    (hd : L.unmarshalReview body = .ok ar) (hr : ar.request = some rq) :
    serve L req check =
      match check ar with
      | .panic => { checkCalls := [ar], written := none, panicked := true }
      | .ret (ar', none) =>
        match getPatch L ar ar' with
        | .panic => { checkCalls := [ar], written := none, panicked := true }
        | .ret (.error _) => { checkCalls := [ar], written := none, panicked := false }
        | .ret (.ok (patch, patchType)) =>
          finish L [ar] ar'
            { (respReviewFor rq.uid : AdmissionReview β) with
              response := (respReviewFor rq.uid : AdmissionReview β).response.map fun r =>
                { r with patch := patch, patchType := patchType } }
      | .ret (ar', some _) => finish L [ar] ar' (respReviewFor rq.uid) := by
  unfold serve
  simp only [hb, hct, hd, hr, ne_eq, not_true_eq_false, if_false]

/-- Either `getPatch` attaches nothing, or it attaches a patch together with the
JSONPatch type. -/
theorem getPatch_shape {β ρ : Type} (L : Lib β ρ) (old updated : AdmissionReview β)
    (patch : Option β) (pt : Option PatchType)
    (h : getPatch L old updated = .ret (.ok (patch, pt))) :
    (patch = none ∧ pt = none) ∨ (∃ p, patch = some p ∧ pt = some PatchTypeJSONPatch) := by
  unfold getPatch at h
  split at h
  · split at h
    · simp at h
    · split at h
      · simp only [Run.ret.injEq, Except.ok.injEq, Prod.mk.injEq] at h
        exact Or.inl ⟨h.1.symm, h.2.symm⟩
      · split at h
        · simp at h
        · rename_i p _
          simp only [Run.ret.injEq, Except.ok.injEq, Prod.mk.injEq] at h
          exact Or.inr ⟨p, h.1.symm, h.2.symm⟩
  · simp at h

/-- The response review with the given patch and patch type attached. -/
theorem respReviewFor_response {β : Type} (uid : String) :
    (respReviewFor uid : AdmissionReview β).response = some
      { uid := uid, allowed := true,
        result := some { status := "Success", message := "Request permitted", code := 200 },
        patch := none, patchType := none } := rfl

/-- Whatever `serve` hands to `resp.Write` is the prepared response review of a
decoded request, with either nothing or a JSONPatch attached. -/
theorem serve_written_inv {β ρ : Type} (L : Lib β ρ) (req : Request β) (check : checkFn β)
    (r : AdmissionReview β) (bytes : β)
    (h : (serve L req check).written = some (r, bytes)) :
    ∃ body ar rq patch pt,
      req.contentType = "application/json" ∧ req.body = some (.ok body) ∧
      L.unmarshalReview body = .ok ar ∧ ar.request = some rq ∧
      r.response = some
        { uid := rq.uid, allowed := true,
          result := some { status := "Success", message := "Request permitted", code := 200 },
          patch := patch, patchType := pt } ∧
      ((patch = none ∧ pt = none) ∨ (∃ p, patch = some p ∧ pt = some PatchTypeJSONPatch)) ∧
      L.marshalReview r = .ok bytes := by
  cases hb : req.body with
  | none => simp [serve, hb] at h
  | some reader =>
    by_cases hct : req.contentType = "application/json"
    swap
    · simp [serve, hb, hct] at h
    cases reader with
    | error e => simp [serve, hb, hct] at h
    | ok body =>
      cases hd : L.unmarshalReview body with
      | error e => simp [serve, hb, hct, hd] at h
      | ok ar =>
        cases hr : ar.request with
        | none => simp [serve, hb, hct, hd, hr] at h
        | some rq =>
          rw [serve_decoded L req check body ar rq hct hb hd hr] at h
          refine ⟨body, ar, rq, ?_⟩
          split at h
          · simp at h
          · rename_i ar' hc
            split at h
            · simp at h
            · simp at h
            · rename_i patch pt hg
              obtain ⟨h1, h2⟩ := finish_written_inv L _ _ _ _ _ h
              refine ⟨patch, pt, hct, rfl, hd, hr, ?_, getPatch_shape L _ _ _ _ hg, ?_⟩
              · rw [h1]; rfl
              · rw [h1]; exact h2
          · rename_i ar' e hc
            obtain ⟨h1, h2⟩ := finish_written_inv L _ _ _ _ _ h
            refine ⟨none, none, hct, rfl, hd, hr, ?_, Or.inl ⟨rfl, rfl⟩, ?_⟩
            · rw [h1]; rfl
            · rw [h1]; exact h2

/-- The rule on object bytes that do not deserialize as a cluster. -/
theorem mutateClusterCNI_undecodable {β ρ : Type} (L : Lib β ρ) (ar : AdmissionReview β)
    (rq : AdmissionRequest β) (e : GoError) (hr : ar.request = some rq)
    (hc : L.unmarshalCluster rq.object = .error e) :
    mutateClusterCNI L ar = .ret (ar, some "failed to parse request raw object") := by
  simp [mutateClusterCNI, hr, hc]

/-- The rule on object bytes that deserialize as the cluster `c`: nothing to do
when neither label is set; otherwise the cluster is serialized with a plugin
section that holds the two labels (an unset label leaves its field empty). -/
theorem mutateClusterCNI_decoded {β ρ : Type} (L : Lib β ρ) (ar : AdmissionReview β)
    (rq : AdmissionRequest β) (c : Cluster ρ) (hr : ar.request = some rq)
    (hc : L.unmarshalCluster rq.object = .ok c) :
    mutateClusterCNI L ar =
      if labelOf c.labels "hackaton-cni" = "" ∧ labelOf c.labels "hackaton-cni-version" = "" then
        .ret (ar, none)
      else
        match L.marshalCluster
          { c with cniPlugin := some ⟨labelOf c.labels "hackaton-cni",
                                      labelOf c.labels "hackaton-cni-version"⟩ } with
        | .error _ =>
          .ret ({ ar with request := some { rq with object := L.nilBytes } },
            some "failed to compress request raw object")
        | .ok raw => .ret ({ ar with request := some { rq with object := raw } }, none) := by
  by_cases h1 : labelOf c.labels "hackaton-cni" = "" <;>
    by_cases h2 : labelOf c.labels "hackaton-cni-version" = "" <;>
    simp [mutateClusterCNI, hr, hc, h1, h2]

/-- Once the envelope is decoded and carries a request, `serve` calls the
mutation rule, once, on the decoded review. -/
theorem serve_checkCalls {β ρ : Type} (L : Lib β ρ) (req : Request β) (check : checkFn β)
    (body : β) (ar : AdmissionReview β) (rq : AdmissionRequest β)
    (hct : req.contentType = "application/json") (hb : req.body = some (.ok body))
    (hd : L.unmarshalReview body = .ok ar) (hr : ar.request = some rq) :
    (serve L req check).checkCalls = [ar] := by
  rw [serve_decoded L req check body ar rq hct hb hd hr]
  split
  · rfl
  · split
    · rfl
    · rfl
    · exact finish_checkCalls L _ _ _
  · exact finish_checkCalls L _ _ _

/-! ## Order of member names -/

theorem char_eq_of_toNat_eq (a b : Char) (h : a.toNat = b.toNat) : a = b := by
  apply Char.ext
  apply UInt32.ext
  exact h

theorem ltChars_irrefl : ∀ xs, ltChars xs xs = false
  | [] => rfl
  | x :: xs => by simp [ltChars, ltChars_irrefl xs]

theorem ltChars_asymm : ∀ xs ys, ltChars xs ys = true → ltChars ys xs = false
  | [], [], _ => rfl
  | [], _ :: _, _ => rfl
  | _ :: _, [], h => by simp [ltChars] at h
  | x :: xs, y :: ys, h => by
    unfold ltChars at h ⊢
    by_cases h1 : x.toNat < y.toNat
    · have h2 : ¬ y.toNat < x.toNat := by omega
      simp [h1, h2]
    · by_cases h2 : y.toNat < x.toNat
      · simp [h1, h2] at h
      · simp only [h1, h2, if_false] at h ⊢
        exact ltChars_asymm xs ys h

theorem ltChars_trans : ∀ xs ys zs, ltChars xs ys = true → ltChars ys zs = true →
    ltChars xs zs = true
  | [], [], _, h, _ => by simp [ltChars] at h
  | [], _ :: _, [], _, h => by simp [ltChars] at h
  | [], _ :: _, _ :: _, _, _ => rfl
  | _ :: _, [], _, h, _ => by simp [ltChars] at h
  | _ :: _, _ :: _, [], _, h => by simp [ltChars] at h
  | x :: xs, y :: ys, z :: zs, h, h' => by
    unfold ltChars at h h' ⊢
    by_cases a1 : x.toNat < y.toNat
    · by_cases b1 : y.toNat < z.toNat
      · have : x.toNat < z.toNat := by omega
        simp [this]
      · by_cases b2 : z.toNat < y.toNat
        · simp [b1, b2] at h'
        · have : x.toNat < z.toNat := by omega
          simp [this]
    · by_cases a2 : y.toNat < x.toNat
      · simp [a1, a2] at h
      · simp only [a1, a2, if_false] at h
        by_cases b1 : y.toNat < z.toNat
        · have : x.toNat < z.toNat := by omega
          simp [this]
        · by_cases b2 : z.toNat < y.toNat
          · simp [b1, b2] at h'
          · simp only [b1, b2, if_false] at h'
            have c1 : ¬ x.toNat < z.toNat := by omega
            have c2 : ¬ z.toNat < x.toNat := by omega
            simp only [c1, c2, if_false]
            exact ltChars_trans xs ys zs h h'

theorem ltChars_total : ∀ xs ys, ltChars xs ys = false → ltChars ys xs = false → xs = ys
  | [], [], _, _ => rfl
  | [], _ :: _, h, _ => by simp [ltChars] at h
  | _ :: _, [], _, h => by simp [ltChars] at h
  | x :: xs, y :: ys, h, h' => by
    unfold ltChars at h h'
    by_cases h1 : x.toNat < y.toNat
    · simp [h1] at h
    · by_cases h2 : y.toNat < x.toNat
      · simp [h2] at h'
      · simp only [h1, h2, if_false] at h h'
        have hxy : x = y := char_eq_of_toNat_eq x y (by omega)
        rw [hxy, ltChars_total xs ys h h']

theorem keyLt_irrefl (a : String) : keyLt a a = false := ltChars_irrefl _

theorem keyLt_asymm (a b : String) (h : keyLt a b = true) : keyLt b a = false :=
  ltChars_asymm _ _ h

theorem keyLt_trans (a b c : String) (h : keyLt a b = true) (h' : keyLt b c = true) :
    keyLt a c = true :=
  ltChars_trans _ _ _ h h'

theorem keyLt_total (a b : String) (h : keyLt a b = false) (h' : keyLt b a = false) :
    a = b :=
  String.ext (ltChars_total _ _ h h')

theorem keyLt_ne (a b : String) (h : keyLt a b = true) : a ≠ b := by
  intro e
  subst e
  rw [keyLt_irrefl] at h
  cases h

/-! ## Member lists in name order -/

theorem canonicalFields_ascending : ∀ fs : Fields, Json.canonicalFields fs = true →
    ascending fs = true
  | [], _ => rfl
  | (k, v) :: fs, h => by
    simp only [Json.canonicalFields, Bool.and_eq_true] at h
    simp only [ascending, Bool.and_eq_true]
    exact ⟨h.1.1, canonicalFields_ascending fs h.2⟩

theorem ascending_tail (k : String) (v : Json) (fs : Fields)
    (h : ascending ((k, v) :: fs) = true) : ascending fs = true := by
  simp only [ascending, Bool.and_eq_true] at h
  exact h.2

theorem canonicalFields_tail (k : String) (v : Json) (fs : Fields)
    (h : Json.canonicalFields ((k, v) :: fs) = true) : Json.canonicalFields fs = true := by
  simp only [Json.canonicalFields, Bool.and_eq_true] at h
  exact h.2

theorem canonicalFields_head (k : String) (v : Json) (fs : Fields)
    (h : Json.canonicalFields ((k, v) :: fs) = true) : Json.canonical v = true := by
  simp only [Json.canonicalFields, Bool.and_eq_true] at h
  exact h.1.2

/-- In an increasing list every later name is above the first one. -/
theorem ascending_lowerBound : ∀ (fs : Fields) (k : String) (v : Json),
    ascending ((k, v) :: fs) = true → ∀ l w, (l, w) ∈ fs → keyLt k l = true
  | [], _, _, _, _, _, hm => by cases hm
  | (m, u) :: fs, k, v, h, l, w, hm => by
    simp only [ascending, above, Bool.and_eq_true] at h
    rcases List.mem_cons.mp hm with he | hm'
    · cases he
      exact h.1
    · have h' : ascending ((m, u) :: fs) = true := by
        simp only [ascending, Bool.and_eq_true]
        exact h.2
      exact keyLt_trans k m l h.1 (ascending_lowerBound fs m u h' l w hm')

theorem lookup_mem : ∀ (fs : Fields) (k : String) (v : Json),
    lookup k fs = some v → (k, v) ∈ fs
  | [], _, _, h => by simp [lookup] at h
  | (l, w) :: fs, k, v, h => by
    unfold lookup at h
    by_cases e : l = k
    · simp only [e, if_true, Option.some.injEq] at h
      subst e h
      exact List.mem_cons_self _ _
    · simp only [e, if_false] at h
      exact List.mem_cons_of_mem _ (lookup_mem fs k v h)

theorem lookup_put_self : ∀ (fs : Fields) (k : String) (v : Json),
    lookup k (put k v fs) = some v
  | [], k, v => by simp [put, lookup]
  | (l, w) :: fs, k, v => by
    unfold put
    by_cases e : l = k
    · simp [e, lookup]
    · by_cases h : keyLt k l = true
      · simp [e, h, lookup]
      · simp [e, h, lookup, lookup_put_self fs k v]

theorem put_put : ∀ (fs : Fields) (k : String) (u v : Json),
    put k v (put k u fs) = put k v fs
  | [], k, u, v => by simp [put]
  | (l, w) :: fs, k, u, v => by
    by_cases e : l = k
    · simp [put, e]
    · by_cases h : keyLt k l = true
      · simp [put, e, h]
      · simp [put, e, h, put_put fs k u v]

theorem put_lookup_self : ∀ (fs : Fields) (k : String) (v : Json),
    ascending fs = true → lookup k fs = some v → put k v fs = fs
  | [], _, _, _, h => by simp [lookup] at h
  | (l, w) :: fs, k, v, ha, h => by
    unfold lookup at h
    by_cases e : l = k
    · simp only [e, if_true, Option.some.injEq] at h
      subst e h
      simp [put]
    · simp only [e, if_false] at h
      have hlt : keyLt l k = true := ascending_lowerBound fs l w ha k v (lookup_mem fs k v h)
      have hnlt : keyLt k l = false := keyLt_asymm l k hlt
      simp [put, e, hnlt, put_lookup_self fs k v (ascending_tail l w fs ha) h]

theorem above_put (fs : Fields) (k l : String) (v : Json) (hk : keyLt k l = true)
    (h : above k fs = true) : above k (put l v fs) = true := by
  cases fs with
  | nil => simpa [put, above] using hk
  | cons p fs =>
    obtain ⟨m, u⟩ := p
    simp only [above] at h
    unfold put
    by_cases e : m = l
    · simpa [e, above] using hk
    · by_cases h' : keyLt l m = true
      · simpa [e, h', above] using hk
      · simpa [e, h', above] using h

theorem ascending_put : ∀ (fs : Fields) (k : String) (v : Json),
    ascending fs = true → ascending (put k v fs) = true
  | [], k, v, _ => by simp [put, ascending, above]
  | (l, w) :: fs, k, v, h => by
    have h0 := h
    simp only [ascending, Bool.and_eq_true] at h
    unfold put
    by_cases e : l = k
    · subst e
      simpa [ascending] using h
    · by_cases hlt : keyLt k l = true
      · simp only [e, hlt, if_true, if_false, ascending, above, Bool.and_eq_true]
        exact ⟨trivial, h.1, h.2⟩
      · have hkl : keyLt l k = true := by
          cases hc : keyLt l k with
          | true => rfl
          | false =>
            have hf : keyLt k l = false := by simpa using hlt
            exact absurd (keyLt_total l k hc hf) e
        simp only [e, hlt, if_false, ascending, Bool.and_eq_true]
        exact ⟨above_put fs l k v hkl h.1, ascending_put fs k v h.2⟩

theorem canonicalFields_put : ∀ (fs : Fields) (k : String) (v : Json),
    Json.canonicalFields fs = true → Json.canonical v = true →
    Json.canonicalFields (put k v fs) = true
  | [], k, v, _, hv => by simp [put, Json.canonicalFields, above, hv]
  | (l, w) :: fs, k, v, h, hv => by
    have h0 := h
    simp only [Json.canonicalFields, Bool.and_eq_true] at h
    unfold put
    by_cases e : l = k
    · subst e
      simp only [if_true, Json.canonicalFields, Bool.and_eq_true]
      exact ⟨⟨h.1.1, hv⟩, h.2⟩
    · by_cases hlt : keyLt k l = true
      · simp only [e, hlt, if_true, if_false, Json.canonicalFields, above, Bool.and_eq_true]
        exact ⟨⟨trivial, hv⟩, ⟨h.1.1, h.1.2⟩, h.2⟩
      · have hkl : keyLt l k = true := by
          cases hc : keyLt l k with
          | true => rfl
          | false =>
            have hf : keyLt k l = false := by simpa using hlt
            exact absurd (keyLt_total l k hc hf) e
        simp only [e, hlt, if_false, Json.canonicalFields, Bool.and_eq_true]
        exact ⟨⟨above_put fs l k v hkl h.1.1, h.1.2⟩, canonicalFields_put fs k v h.2 hv⟩

theorem canonical_of_lookup : ∀ (fs : Fields) (k : String) (v : Json),
    Json.canonicalFields fs = true → lookup k fs = some v → Json.canonical v = true
  | [], _, _, _, h => by simp [lookup] at h
  | (l, w) :: fs, k, v, hc, h => by
    unfold lookup at h
    by_cases e : l = k
    · simp only [e, if_true, Option.some.injEq] at h
      subst h
      exact canonicalFields_head l _ fs hc
    · simp only [e, if_false] at h
      exact canonical_of_lookup fs k v (canonicalFields_tail l w fs hc) h

/-! ## The diff engine -/

theorem diffFields_nil (gs : Fields) :
    diffFields [] gs = gs.map fun g => ⟨.add, [g.1], some g.2⟩ := by
  unfold diffFields
  rfl

theorem diffFields_cons_nil (k : String) (v : Json) (fs : Fields) :
    diffFields ((k, v) :: fs) [] = ⟨.remove, [k], none⟩ :: diffFields fs [] := by
  rw [diffFields]
  rfl

theorem diffFields_cons_cons (k l : String) (v w : Json) (fs gs : Fields) :
    diffFields ((k, v) :: fs) ((l, w) :: gs) =
      if keyLt k l then ⟨.remove, [k], none⟩ :: diffFields fs ((l, w) :: gs)
      else if keyLt l k then ⟨.add, [l], some w⟩ :: diffFields ((k, v) :: fs) gs
      else (diff v w).map (Operation.under k) ++ diffFields fs gs := by
  rw [diffFields, mergeInto, diffFields]

mutual
theorem same_refl : ∀ j : Json, Json.same j j = true
  | .null => rfl
  | .bool b => by simp [Json.same]
  | .num n => by simp [Json.same]
  | .str s => by simp [Json.same]
  | .arr xs => by
    rw [Json.same]
    exact sameItems_refl xs
  | .obj fs => by
    rw [Json.same]
    exact sameFields_refl fs
theorem sameItems_refl : ∀ xs : List Json, Json.sameItems xs xs = true
  | [] => rfl
  | x :: xs => by
    rw [Json.sameItems, same_refl x, sameItems_refl xs]
    rfl
theorem sameFields_refl : ∀ fs : Fields, Json.sameFields fs fs = true
  | [] => rfl
  | (k, x) :: fs => by
    rw [Json.sameFields, same_refl x, sameFields_refl fs]
    simp
end

mutual
/-- The diff of a document against itself is empty. -/
theorem diff_self : ∀ j : Json, diff j j = []
  | .null => by simp [diff, same_refl]
  | .bool b => by simp [diff, same_refl]
  | .num n => by simp [diff, same_refl]
  | .str s => by simp [diff, same_refl]
  | .arr xs => by simp [diff, same_refl]
  | .obj fs => by
    rw [diff]
    exact diffFields_self fs
theorem diffFields_self : ∀ fs : Fields, diffFields fs fs = []
  | [] => by simp [diffFields_nil]
  | (k, v) :: fs => by
    rw [diffFields_cons_cons, keyLt_irrefl, diff_self v, diffFields_self fs]
    simp
end

/-- Changing the value of one member changes the diff by the diff of that
member, addressed below its name. -/
theorem diffFields_put_present : ∀ (fs : Fields) (k : String) (x y : Json),
    ascending fs = true → lookup k fs = some x →
    diffFields fs (put k y fs) = (diff x y).map (Operation.under k)
  | [], _, _, _, _, h => by simp [lookup] at h
  | (l, w) :: fs, k, x, y, ha, h => by
    unfold lookup at h
    by_cases e : l = k
    · simp only [e, if_true, Option.some.injEq] at h
      subst e h
      simp [put, diffFields_cons_cons, keyLt_irrefl, diffFields_self]
    · simp only [e, if_false] at h
      have hlt : keyLt l k = true := ascending_lowerBound fs l w ha k x (lookup_mem fs k x h)
      have hnlt : keyLt k l = false := keyLt_asymm l k hlt
      simp [put, e, hnlt, diffFields_cons_cons, keyLt_irrefl, diff_self,
        diffFields_put_present fs k x y (ascending_tail l w fs ha) h]

/-- Inserting a new member gives the diff that adds it. -/
theorem diffFields_put_absent : ∀ (fs : Fields) (k : String) (y : Json),
    lookup k fs = none →
    diffFields fs (put k y fs) = [⟨.add, [k], some y⟩]
  | [], k, y, _ => by simp [put, diffFields_nil]
  | (l, w) :: fs, k, y, h => by
    unfold lookup at h
    by_cases e : l = k
    · simp [e] at h
    · simp only [e, if_false] at h
      by_cases hlt : keyLt k l = true
      · have hnlt : keyLt l k = false := keyLt_asymm k l hlt
        simp [put, e, hlt, hnlt, diffFields_cons_cons, diffFields_self]
      · simp [put, e, hlt, diffFields_cons_cons, keyLt_irrefl, diff_self,
          diffFields_put_absent fs k y h]

/-! ## The cluster codec and the handler on the concrete library -/

/-- A document that decodes as a cluster is a canonical JSON object, kept as
the rest of the cluster. -/
theorem decodeCluster_ok (d : Doc) (c : Cluster Json) (h : decodeCluster d = .ok c) :
    ∃ fs, d = .json (.obj fs) ∧ Json.canonicalFields fs = true ∧ c.rest = .obj fs := by
  cases d with
  | invalid => simp [decodeCluster] at h
  | json j =>
    unfold decodeCluster at h
    by_cases hcan : j.canonical = false
    · simp [hcan] at h
    · simp only [hcan, if_false] at h
      cases j with
      | obj fs =>
        refine ⟨fs, rfl, ?_, ?_⟩
        · simpa [Json.canonical] using hcan
        · cases hmeta : decodeMeta fs with
          | error e => simp [hmeta] at h
          | ok labels =>
            cases hspec : decodeSpec fs with
            | error e => simp [hmeta, hspec] at h
            | ok plugin =>
              simp [hmeta, hspec] at h
              rw [← h]
      | null => simp at h
      | bool b => simp at h
      | num n => simp at h
      | str s => simp at h
      | arr xs => simp at h

theorem encodePlugin_canonical (p : CNIPluginSettings) :
    Json.canonical (encodePlugin p) = true := by
  have h : keyLt "type" "version" = true := by decide
  simp [encodePlugin, Json.canonical, Json.canonicalFields, above, h]

/-- Members of the `spec` section of an object, none when it has no such
section. -/
theorem specMembers_canonical (fs : Fields) (h : Json.canonicalFields fs = true) :
    Json.canonicalFields
      (match lookup "spec" fs with
        | some (.obj ss) => ss
        | _ => []) = true := by
  split
  · rename_i ss hs
    have := canonical_of_lookup fs "spec" (.obj ss) h hs
    simpa [Json.canonical] using this
  · rfl

/-- The re-serialized cluster is the decoded object with `spec.cniPlugin` set,
and it is canonical. -/
theorem encodeCluster_some (labels : List (String × String)) (p : CNIPluginSettings)
    (fs : Fields) (h : Json.canonicalFields fs = true) :
    ∃ ss, Json.canonicalFields ss = true ∧
      (∀ ss', lookup "spec" fs = some (.obj ss') → ss = ss') ∧
      encodeCluster { labels := labels, cniPlugin := some p, rest := .obj fs } =
        .json (.obj (put "spec" (.obj (put "cniPlugin" (encodePlugin p) ss)) fs)) ∧
      Json.canonical (.obj (put "spec" (.obj (put "cniPlugin" (encodePlugin p) ss)) fs)) =
        true := by
  refine ⟨match lookup "spec" fs with
        | some (.obj ss) => ss
        | _ => [], specMembers_canonical fs h, ?_, rfl, ?_⟩
  · intro ss' hs
    simp [hs]
  · rw [Json.canonical]
    apply canonicalFields_put fs _ _ h
    rw [Json.canonical]
    exact canonicalFields_put _ _ _ (specMembers_canonical fs h) (encodePlugin_canonical p)

/-- The run of `serve` with the rule `mutateClusterCNI` on the concrete library,
for an object with a label set: the response carries the diff between the
object and its re-serialization, when that diff is not empty. -/
theorem serve_spec_mutated (req : Request Doc) (body : Doc) (ar : AdmissionReview Doc)
    (rq : AdmissionRequest Doc) (orig mutated : Json) (c : Cluster Json)
    (ops : List Operation)
    (hct : req.contentType = "application/json") (hb : req.body = some (.ok body))
    (hd : decodeReview body = .ok ar) (hr : ar.request = some rq)
    (hobj : rq.object = .json orig) (hc : decodeCluster (.json orig) = .ok c)
    (hl : ¬ (labelOf c.labels "hackaton-cni" = "" ∧
      labelOf c.labels "hackaton-cni-version" = ""))
    (henc : encodeCluster
      { c with cniPlugin := some ⟨labelOf c.labels "hackaton-cni",
                                  labelOf c.labels "hackaton-cni-version"⟩ } = .json mutated)
    (hcp : createPatch (.json orig) (.json mutated) = .ok ops) :
    mutateClusterCNI specLib ar =
      .ret ({ ar with request := some { rq with object := .json mutated } }, none) ∧
    ∃ r resp, (serve specLib req (mutateClusterCNI specLib)).written =
        some (r, encodeReview r) ∧
      r.response = some resp ∧ resp.uid = rq.uid ∧ resp.allowed = true ∧
      resp.patch = (if ops.isEmpty then none else some (encodePatch ops)) ∧
      resp.patchType = (if ops.isEmpty then none else some PatchTypeJSONPatch) := by
  have hc' : specLib.unmarshalCluster rq.object = .ok c := by rw [hobj]; exact hc
  have hmc : specLib.marshalCluster
      { c with cniPlugin := some ⟨labelOf c.labels "hackaton-cni",
                                  labelOf c.labels "hackaton-cni-version"⟩ } =
      .ok (.json mutated) := by
    show Except.ok (encodeCluster _) = _
    rw [henc]
  have hm : mutateClusterCNI specLib ar =
      .ret ({ ar with request := some { rq with object := .json mutated } }, none) := by
    rw [mutateClusterCNI_decoded specLib ar rq c hr hc', if_neg hl]
    simp only [hmc]
  refine ⟨hm, ?_⟩
  have hs := serve_decoded specLib req (mutateClusterCNI specLib) body ar rq hct hb hd hr
  rw [hm] at hs
  have hcp' : specLib.createPatch rq.object (.json mutated) = .ok ops := by
    rw [hobj]
    exact hcp
  have hmp : specLib.marshalPatch ops = .ok (encodePatch ops) := rfl
  cases ops with
  | nil =>
    have hg : getPatch specLib ar
        { ar with request := some { rq with object := .json mutated } } =
        .ret (.ok (none, none)) := by
      simp [getPatch, hr, hcp']
    simp only [hg] at hs
    rw [hs]
    exact ⟨_, _, finish_written specLib _ _ _ _ rfl, rfl, rfl, rfl, rfl, rfl⟩
  | cons o os =>
    have hg : getPatch specLib ar
        { ar with request := some { rq with object := .json mutated } } =
        .ret (.ok (some (encodePatch (o :: os)), some PatchTypeJSONPatch)) := by
      simp [getPatch, hr, hcp', hmp]
    simp only [hg] at hs
    rw [hs]
    exact ⟨_, _, finish_written specLib _ _ _ _ rfl, rfl, rfl, rfl, rfl, rfl⟩

/-! ## Applying a patch -/

theorem applyPatch_append : ∀ (xs ys : List Operation) (d : Json),
    applyPatch (xs ++ ys) d = (applyPatch xs d).bind (applyPatch ys)
  | [], ys, d => by simp [applyPatch]
  | x :: xs, ys, d => by
    simp only [List.cons_append, applyPatch]
    cases applyOp x d with
    | none => rfl
    | some d' => exact applyPatch_append xs ys d'

/-- An operation that works on the value of member `k` works on the object when
addressed below `k`. -/
theorem applyOp_under (o : Operation) (k : String) (fs : Fields) (child c' : Json)
    (hside : o.path ≠ [] ∨ o.op ≠ .remove) (hl : lookup k fs = some child)
    (h : applyOp o child = some c') :
    applyOp (o.under k) (.obj fs) = some (.obj (put k c' fs)) := by
  obtain ⟨op, path, value⟩ := o
  cases path with
  | nil =>
    cases op with
    | remove => simp at hside
    | add =>
      simp only [applyOp, applyAt] at h
      simp [applyOp, Operation.under, applyAt, h]
    | replace =>
      simp only [applyOp, applyAt] at h
      simp [applyOp, Operation.under, applyAt, h, hl]
  | cons p ps =>
    simp only [applyOp] at h
    simp [applyOp, Operation.under, applyAt, hl, h]

theorem applyPatch_under : ∀ (ops : List Operation) (k : String) (fs : Fields)
    (child c' : Json), (∀ o ∈ ops, o.path ≠ [] ∨ o.op ≠ .remove) →
    ascending fs = true → lookup k fs = some child → applyPatch ops child = some c' →
    applyPatch (ops.map (Operation.under k)) (.obj fs) = some (.obj (put k c' fs))
  | [], k, fs, child, c', _, ha, hl, h => by
    simp only [applyPatch, Option.some.injEq] at h
    subst h
    simp [applyPatch, put_lookup_self fs k child ha hl]
  | o :: ops, k, fs, child, c', hside, ha, hl, h => by
    simp only [applyPatch] at h
    cases h1 : applyOp o child with
    | none => simp [h1] at h
    | some c1 =>
      simp only [h1] at h
      have hA := applyOp_under o k fs child c1 (hside o (List.mem_cons_self _ _)) hl h1
      simp only [List.map_cons, applyPatch, hA]
      have hB := applyPatch_under ops k (put k c1 fs) c1 c'
        (fun o' ho' => hside o' (List.mem_cons_of_mem _ ho'))
        (ascending_put fs k c1 ha) (lookup_put_self fs k c1) h
      rw [hB, put_put]

/-- An operation addressed at a member above `k` works the same below an extra
first member `k`. -/
theorem applyOp_frame (o : Operation) (k l : String) (p : List String) (v : Json)
    (fs : Fields) (d : Json) (hp : o.path = l :: p) (hk : keyLt k l = true)
    (h : applyOp o (.obj fs) = some d) :
    ∃ fs1, d = .obj fs1 ∧ applyOp o (.obj ((k, v) :: fs)) = some (.obj ((k, v) :: fs1)) := by
  obtain ⟨op, path, value⟩ := o
  simp only at hp
  subst hp
  have hne : k ≠ l := keyLt_ne k l hk
  have hnlt : keyLt l k = false := keyLt_asymm k l hk
  have hlook : lookup l ((k, v) :: fs) = lookup l fs := by simp [lookup, hne]
  have hput : ∀ x, put l x ((k, v) :: fs) = (k, v) :: put l x fs := by
    intro x
    simp [put, hne, hnlt]
  have herase : erase l ((k, v) :: fs) = (k, v) :: erase l fs := by simp [erase, hne]
  cases p with
  | nil =>
    cases op with
    | add =>
      cases value with
      | none => simp [applyOp, applyAt] at h
      | some x =>
        simp only [applyOp, applyAt, Option.map_some', Option.some.injEq] at h
        exact ⟨put l x fs, h.symm, by simp [applyOp, applyAt, hput]⟩
    | replace =>
      cases value with
      | none =>
        simp only [applyOp, applyAt] at h
        split at h <;> simp at h
      | some x =>
        simp only [applyOp, applyAt] at h
        split at h
        · rename_i hs
          simp only [Option.map_some', Option.some.injEq] at h
          exact ⟨put l x fs, h.symm, by simp [applyOp, applyAt, hput, hlook, hs]⟩
        · simp at h
    | remove =>
      simp only [applyOp, applyAt] at h
      split at h
      · rename_i hs
        simp only [Option.some.injEq] at h
        exact ⟨erase l fs, h.symm, by simp [applyOp, applyAt, herase, hlook, hs]⟩
      · simp at h
  | cons q qs =>
    simp only [applyOp, applyAt] at h
    cases hc : lookup l fs with
    | none => simp [hc] at h
    | some child =>
      simp only [hc] at h
      cases hr : applyAt op value (q :: qs) child with
      | none => simp [hr] at h
      | some c1 =>
        simp only [hr, Option.map_some', Option.some.injEq] at h
        exact ⟨put l c1 fs, h.symm, by simp [applyOp, applyAt, hlook, hc, hr, hput]⟩

theorem applyPatch_frame : ∀ (ops : List Operation) (k : String) (v : Json)
    (fs fs' : Fields),
    (∀ o ∈ ops, ∃ l p, o.path = l :: p ∧ keyLt k l = true) →
    applyPatch ops (.obj fs) = some (.obj fs') →
    applyPatch ops (.obj ((k, v) :: fs)) = some (.obj ((k, v) :: fs'))
  | [], k, v, fs, fs', _, h => by
    simp only [applyPatch, Option.some.injEq, Json.obj.injEq] at h
    subst h
    rfl
  | o :: ops, k, v, fs, fs', hh, h => by
    simp only [applyPatch] at h
    cases h1 : applyOp o (.obj fs) with
    | none => simp [h1] at h
    | some d =>
      simp only [h1] at h
      obtain ⟨l, p, hp, hk⟩ := hh o (List.mem_cons_self _ _)
      obtain ⟨fs1, hd, hF⟩ := applyOp_frame o k l p v fs d hp hk h1
      subst hd
      simp only [applyPatch, hF]
      exact applyPatch_frame ops k v fs1 fs'
        (fun o' ho' => hh o' (List.mem_cons_of_mem _ ho')) h

/-! ## Diff, then apply -/

/-- Every operation of a member-wise diff is addressed at or below a member of
one of the two objects. -/
theorem diffFields_heads : ∀ (fs gs : Fields) (o : Operation), o ∈ diffFields fs gs →
    ∃ l p, o.path = l :: p ∧ ((∃ w, (l, w) ∈ fs) ∨ (∃ w, (l, w) ∈ gs)) := by
  intro fs
  induction fs with
  | nil =>
    intro gs o ho
    rw [diffFields_nil] at ho
    obtain ⟨g, hg, he⟩ := List.mem_map.mp ho
    subst he
    exact ⟨g.1, [], rfl, Or.inr ⟨g.2, hg⟩⟩
  | cons f fs ih =>
    obtain ⟨k, v⟩ := f
    intro gs
    induction gs with
    | nil =>
      intro o ho
      rw [diffFields_cons_nil] at ho
      rcases List.mem_cons.mp ho with he | ho'
      · subst he
        exact ⟨k, [], rfl, Or.inl ⟨v, List.mem_cons_self _ _⟩⟩
      · obtain ⟨l, p, hp, hm⟩ := ih [] o ho'
        rcases hm with ⟨w, hw⟩ | ⟨w, hw⟩
        · exact ⟨l, p, hp, Or.inl ⟨w, List.mem_cons_of_mem _ hw⟩⟩
        · cases hw
    | cons g gs ihg =>
      obtain ⟨l, w⟩ := g
      intro o ho
      rw [diffFields_cons_cons] at ho
      by_cases h1 : keyLt k l = true
      · simp only [h1, if_true] at ho
        rcases List.mem_cons.mp ho with he | ho'
        · subst he
          exact ⟨k, [], rfl, Or.inl ⟨v, List.mem_cons_self _ _⟩⟩
        · obtain ⟨m, p, hp, hm⟩ := ih _ o ho'
          rcases hm with ⟨u, hu⟩ | ⟨u, hu⟩
          · exact ⟨m, p, hp, Or.inl ⟨u, List.mem_cons_of_mem _ hu⟩⟩
          · exact ⟨m, p, hp, Or.inr ⟨u, hu⟩⟩
      · by_cases h2 : keyLt l k = true
        · simp only [h1, h2, if_true, if_false] at ho
          rcases List.mem_cons.mp ho with he | ho'
          · subst he
            exact ⟨l, [], rfl, Or.inr ⟨w, List.mem_cons_self _ _⟩⟩
          · obtain ⟨m, p, hp, hm⟩ := ihg o ho'
            rcases hm with ⟨u, hu⟩ | ⟨u, hu⟩
            · exact ⟨m, p, hp, Or.inl ⟨u, hu⟩⟩
            · exact ⟨m, p, hp, Or.inr ⟨u, List.mem_cons_of_mem _ hu⟩⟩
        · simp only [h1, h2, if_false] at ho
          rcases List.mem_append.mp ho with ho' | ho'
          · obtain ⟨o', _, he⟩ := List.mem_map.mp ho'
            subst he
            exact ⟨k, o'.path, rfl, Or.inl ⟨v, List.mem_cons_self _ _⟩⟩
          · obtain ⟨m, p, hp, hm⟩ := ih _ o ho'
            rcases hm with ⟨u, hu⟩ | ⟨u, hu⟩
            · exact ⟨m, p, hp, Or.inl ⟨u, List.mem_cons_of_mem _ hu⟩⟩
            · exact ⟨m, p, hp, Or.inr ⟨u, List.mem_cons_of_mem _ hu⟩⟩

theorem diff_obj_obj (fs gs : Fields) : diff (.obj fs) (.obj gs) = diffFields fs gs := by
  rw [diff]

theorem diff_obj_other (fs : Fields) (b : Json) (hb : ∀ gs, b ≠ .obj gs) :
    diff (.obj fs) b = [⟨.replace, [], some b⟩] := by
  cases b with
  | obj gs => exact absurd rfl (hb gs)
  | null => simp [diff]
  | bool _ => simp [diff]
  | num _ => simp [diff]
  | str _ => simp [diff]
  | arr _ => simp [diff]

theorem diff_other (a b : Json) (ha : ∀ fs, a ≠ .obj fs) :
    diff a b = if Json.same a b then [] else [⟨.replace, [], some b⟩] := by
  cases a with
  | obj fs => exact absurd rfl (ha fs)
  | null => simp [diff]
  | bool _ => simp [diff]
  | num _ => simp [diff]
  | str _ => simp [diff]
  | arr _ => simp [diff]

/-- A diff never removes the whole document. -/
theorem diff_side (a b : Json) (o : Operation) (ho : o ∈ diff a b) :
    o.path ≠ [] ∨ o.op ≠ .remove := by
  have hrep : ∀ o : Operation, o ∈ [(⟨.replace, [], some b⟩ : Operation)] →
      o.path ≠ [] ∨ o.op ≠ .remove := by
    intro o ho
    simp only [List.mem_singleton] at ho
    subst ho
    exact Or.inr (by simp)
  by_cases ha : ∀ fs, a ≠ .obj fs
  · rw [diff_other a b ha] at ho
    split at ho
    · cases ho
    · exact hrep o ho
  · simp only [not_forall, not_not] at ha
    obtain ⟨fs, ha⟩ := ha
    subst ha
    by_cases hb : ∀ gs, b ≠ .obj gs
    · rw [diff_obj_other fs b hb] at ho
      exact hrep o ho
    · simp only [not_forall, not_not] at hb
      obtain ⟨gs, hb⟩ := hb
      subst hb
      rw [diff_obj_obj] at ho
      obtain ⟨l, p, hp, _⟩ := diffFields_heads fs gs o ho
      exact Or.inl (by rw [hp]; simp)

mutual
theorem same_eq : ∀ (a b : Json), Json.same a b = true → a = b
  | .null, b, h => by cases b <;> simp [Json.same] at h ⊢
  | .bool x, b, h => by cases b <;> simp [Json.same] at h ⊢; exact h
  | .num x, b, h => by cases b <;> simp [Json.same] at h ⊢; exact h
  | .str x, b, h => by cases b <;> simp [Json.same] at h ⊢; exact h
  | .arr xs, b, h => by
    cases b with
    | arr ys =>
      rw [Json.same] at h
      rw [sameItems_eq xs ys h]
    | null => simp [Json.same] at h
    | bool _ => simp [Json.same] at h
    | num _ => simp [Json.same] at h
    | str _ => simp [Json.same] at h
    | obj _ => simp [Json.same] at h
  | .obj fs, b, h => by
    cases b with
    | obj gs =>
      rw [Json.same] at h
      rw [sameFields_eq fs gs h]
    | null => simp [Json.same] at h
    | bool _ => simp [Json.same] at h
    | num _ => simp [Json.same] at h
    | str _ => simp [Json.same] at h
    | arr _ => simp [Json.same] at h
theorem sameItems_eq : ∀ (xs ys : List Json), Json.sameItems xs ys = true → xs = ys
  | [], ys, h => by cases ys <;> simp [Json.sameItems] at h ⊢
  | x :: xs, ys, h => by
    cases ys with
    | nil => simp [Json.sameItems] at h
    | cons y ys =>
      simp only [Json.sameItems, Bool.and_eq_true] at h
      rw [same_eq x y h.1, sameItems_eq xs ys h.2]
theorem sameFields_eq : ∀ (fs gs : Fields), Json.sameFields fs gs = true → fs = gs
  | [], gs, h => by cases gs <;> simp [Json.sameFields] at h ⊢
  | (k, x) :: fs, gs, h => by
    cases gs with
    | nil => simp [Json.sameFields] at h
    | cons g gs =>
      obtain ⟨l, y⟩ := g
      simp only [Json.sameFields, Bool.and_eq_true, beq_iff_eq] at h
      rw [h.1.1, same_eq x y h.1.2, sameFields_eq fs gs h.2]
end

/-- The operations of a member-wise diff are addressed above any name that is
below all names of both objects. -/
theorem diffFields_above (k : String) (fs gs : Fields)
    (hf : ∀ l w, (l, w) ∈ fs → keyLt k l = true)
    (hg : ∀ l w, (l, w) ∈ gs → keyLt k l = true) :
    ∀ o ∈ diffFields fs gs, ∃ l p, o.path = l :: p ∧ keyLt k l = true := by
  intro o ho
  obtain ⟨l, p, hp, hm⟩ := diffFields_heads fs gs o ho
  rcases hm with ⟨w, hw⟩ | ⟨w, hw⟩
  · exact ⟨l, p, hp, hf l w hw⟩
  · exact ⟨l, p, hp, hg l w hw⟩

/-- Adding the members of a canonical object one by one builds that object. -/
theorem applyPatch_adds : ∀ gs : Fields, ascending gs = true →
    applyPatch (gs.map fun g => ⟨.add, [g.1], some g.2⟩) (.obj []) = some (.obj gs)
  | [], _ => rfl
  | (l, w) :: gs, h => by
    have hstep : applyOp ⟨.add, [l], some w⟩ (.obj []) = some (.obj [(l, w)]) := by
      simp [applyOp, applyAt, put]
    simp only [List.map_cons, applyPatch, hstep]
    apply applyPatch_frame _ l w [] gs _ (applyPatch_adds gs (ascending_tail l w gs h))
    intro o ho
    obtain ⟨g, hg, he⟩ := List.mem_map.mp ho
    subst he
    exact ⟨g.1, [], rfl, ascending_lowerBound gs l w h g.1 g.2 hg⟩

/-- Applying the member-wise diff of two canonical objects to the first gives
the second, provided this holds for the values of the members. -/
theorem diffFields_apply : ∀ (fs : Fields),
    (∀ l v, (l, v) ∈ fs → ∀ w, Json.canonical v = true → Json.canonical w = true →
      applyPatch (diff v w) v = some w) →
    ∀ gs, Json.canonicalFields fs = true → Json.canonicalFields gs = true →
    applyPatch (diffFields fs gs) (.obj fs) = some (.obj gs) := by
  intro fs
  induction fs with
  | nil =>
    intro _ gs _ hg
    rw [diffFields_nil]
    exact applyPatch_adds gs (canonicalFields_ascending gs hg)
  | cons f fs ih =>
    obtain ⟨k, v⟩ := f
    intro H gs hf
    have hfa := canonicalFields_ascending _ hf
    have hft := canonicalFields_tail k v fs hf
    have hlow := ascending_lowerBound fs k v hfa
    have ih' := ih (fun l x hm => H l x (List.mem_cons_of_mem _ hm))
    have hrem : applyOp ⟨.remove, [k], none⟩ (.obj ((k, v) :: fs)) = some (.obj fs) := by
      simp [applyOp, applyAt, lookup, erase]
    induction gs with
    | nil =>
      intro hg
      rw [diffFields_cons_nil]
      simp only [applyPatch, hrem]
      exact ih' [] hft hg
    | cons g gs ihg =>
      obtain ⟨l, w⟩ := g
      intro hg
      have hga := canonicalFields_ascending _ hg
      have hgt := canonicalFields_tail l w gs hg
      have hglow := ascending_lowerBound gs l w hga
      rw [diffFields_cons_cons]
      by_cases h1 : keyLt k l = true
      · simp only [h1, if_true, applyPatch, hrem]
        exact ih' _ hft hg
      · by_cases h2 : keyLt l k = true
        · simp only [h1, h2, if_true, if_false]
          have hadd : applyOp ⟨.add, [l], some w⟩ (.obj ((k, v) :: fs)) =
              some (.obj ((l, w) :: (k, v) :: fs)) := by
            have hne : k ≠ l := (keyLt_ne l k h2).symm
            simp [applyOp, applyAt, put, hne, h2]
          simp only [applyPatch, hadd]
          apply applyPatch_frame _ l w _ gs _ (ihg hgt)
          apply diffFields_above l _ gs _ hglow
          intro m u hm
          rcases List.mem_cons.mp hm with he | hm'
          · cases he
            exact h2
          · exact keyLt_trans l k m h2 (hlow m u hm')
        · have hf1 : keyLt k l = false := by simpa using h1
          have hf2 : keyLt l k = false := by simpa using h2
          have hkl : k = l := keyLt_total k l hf1 hf2
          subst hkl
          simp only [hf1, if_false, Bool.false_eq_true]
          rw [applyPatch_append]
          have hvw := H k v (List.mem_cons_self _ _) w (canonicalFields_head k v fs hf)
            (canonicalFields_head k w gs hg)
          have hB := applyPatch_under (diff v w) k ((k, v) :: fs) v w
            (fun o ho => diff_side v w o ho) hfa (by simp [lookup]) hvw
          have hput : put k w ((k, v) :: fs) = (k, w) :: fs := by simp [put]
          rw [hB, hput]
          simp only [Option.some_bind]
          apply applyPatch_frame _ k w fs gs _ (ih' gs hft hgt)
          exact diffFields_above k fs gs hlow hglow

theorem diff_apply_other (a b : Json) (hobj : ∀ fs, a ≠ .obj fs) :
    applyPatch (diff a b) a = some b := by
  rw [diff_other a b hobj]
  split
  · rename_i hs
    rw [same_eq a b hs]
    rfl
  · simp [applyPatch, applyOp, applyAt]

/-- Applying the diff of two canonical documents to the first gives the
second. -/
theorem diff_apply : ∀ (a b : Json), Json.canonical a = true → Json.canonical b = true →
    applyPatch (diff a b) a = some b
  | .null, b, _, _ => diff_apply_other _ b (by simp)
  | .bool _, b, _, _ => diff_apply_other _ b (by simp)
  | .num _, b, _, _ => diff_apply_other _ b (by simp)
  | .str _, b, _, _ => diff_apply_other _ b (by simp)
  | .arr _, b, _, _ => diff_apply_other _ b (by simp)
  | .obj fs, b, ha, hb => by
    by_cases hb' : ∀ gs, b ≠ .obj gs
    · rw [diff_obj_other fs b hb']
      simp [applyPatch, applyOp, applyAt]
    · simp only [not_forall, not_not] at hb'
      obtain ⟨gs, hgs⟩ := hb'
      subst hgs
      rw [diff_obj_obj]
      rw [Json.canonical] at ha hb
      exact diffFields_apply fs
        (fun l v hm w hv hw => diff_apply v w hv hw) gs ha hb
termination_by a => sizeOf a
decreasing_by
  have h1 := List.sizeOf_lt_of_mem hm
  simp only [Json.obj.sizeOf_spec, Prod.mk.sizeOf_spec] at h1 ⊢
  omega

/-- On the concrete library the diff of an object that deserializes as a
cluster against itself is the empty sequence. -/
theorem createPatch_self (d : Doc) (c : Cluster Json) (h : decodeCluster d = .ok c) :
    createPatch d d = .ok [] := by
  obtain ⟨fs, hfs, hcan, _⟩ := decodeCluster_ok d c h
  subst hfs
  have hcan1 : Json.canonical (.obj fs) = true := by
    rw [Json.canonical]
    exact hcan
  simp only [createPatch, hcan1, Bool.and_self, if_true, diff_self]

/-- A body that decodes to a review without a request section ends the run of
`serve` at the dereference of `reqReview.Request` (line 129), before the
mutation rule is called and before anything is written. -/
theorem serve_panics_without_request {β ρ : Type} (L : Lib β ρ) (req : Request β)
    (check : checkFn β) (body : β) (ar : AdmissionReview β)
    (hct : req.contentType = "application/json") (hb : req.body = some (.ok body))
    (hd : L.unmarshalReview body = .ok ar) (hr : ar.request = none) :
    serve L req check = { checkCalls := [], written := none, panicked := true } := by
  simp [serve, hct, hb, hd, hr]

/-- The reference tokens `spec`, `cniPlugin` spell the pointer
`/spec/cniPlugin`. -/
theorem pointer_spec_cniPlugin :
    String.mk (pointer ["spec", "cniPlugin"]) = "/spec/cniPlugin" := by
  decide

/-! ## The claims -/

/-- C4: a request with a nil body, with a Content-Type other than exactly
`application/json`, with a body that cannot be read, or with a body that does
not decode as an admission-review envelope makes `serve` return without
writing anything to the response and without calling the mutation rule
`check`. -/
theorem serve_rejects_before_check {β ρ : Type} (L : Lib β ρ) (req : Request β)
    (check : checkFn β)
    (h : req.body = none ∨ req.contentType ≠ "application/json" ∨
      (∃ e, req.body = some (.error e)) ∨
      (∃ body e, req.body = some (.ok body) ∧ L.unmarshalReview body = .error e)) :
    (serve L req check).written = none ∧ (serve L req check).checkCalls = [] ∧
      (serve L req check).panicked = false := by
  rcases h with h | h | ⟨e, h⟩ | ⟨body, e, h, hd⟩
  · simp [serve, h]
  · cases hb : req.body <;> simp [serve, hb, h]
  · by_cases hct : req.contentType = "application/json" <;> simp [serve, h, hct]
  · by_cases hct : req.contentType = "application/json" <;> simp [serve, h, hct, hd]

/-- Witness of C4: a `text/plain` request and an `application/json` request whose
body is not JSON are both dropped. -/
theorem serve_rejects_before_check_witness :
    ((serve specLib { body := some (.ok (bodyOf "u1" objBoth)), contentType := "text/plain" }
        (mutateClusterCNI specLib)).written = none ∧
      (serve specLib { body := some (.ok (bodyOf "u1" objBoth)), contentType := "text/plain" }
        (mutateClusterCNI specLib)).checkCalls = [] ∧
      (serve specLib { body := some (.ok (bodyOf "u1" objBoth)), contentType := "text/plain" }
        (mutateClusterCNI specLib)).panicked = false) ∧
    ((serve specLib (postOf Doc.invalid) (mutateClusterCNI specLib)).written = none ∧
      (serve specLib (postOf Doc.invalid) (mutateClusterCNI specLib)).checkCalls = [] ∧
      (serve specLib (postOf Doc.invalid) (mutateClusterCNI specLib)).panicked = false) :=
  ⟨serve_rejects_before_check specLib _ _ (Or.inr (Or.inl (by decide))),
   serve_rejects_before_check specLib _ _
    (Or.inr (Or.inr (Or.inr ⟨Doc.invalid, "unexpected end of JSON input", rfl, rfl⟩)))⟩

/-- C6: every response review that `serve` hands to `resp.Write` answers a
decoded request, carries the UID of that request, has `allowed = true` with
status `Success`, message `Request permitted` and code 200, and is written as
the bytes `json.Marshal` gave for it; this holds for every request, library and
mutation rule, so no response with `allowed = false` is ever written. -/
theorem serve_always_allows {β ρ : Type} (L : Lib β ρ) (req : Request β) (check : checkFn β)
    (r : AdmissionReview β) (bytes : β)
    (h : (serve L req check).written = some (r, bytes)) :
    ∃ body ar rq resp,
      req.body = some (.ok body) ∧ L.unmarshalReview body = .ok ar ∧ ar.request = some rq ∧
      r.response = some resp ∧ resp.uid = rq.uid ∧ resp.allowed = true ∧
      resp.result = some { status := "Success", message := "Request permitted", code := 200 } ∧
      L.marshalReview r = .ok bytes := by
  obtain ⟨body, ar, rq, patch, pt, _, hb, hd, hr, hresp, _, hm⟩ :=
    serve_written_inv L req check r bytes h
  exact ⟨body, ar, rq, _, hb, hd, hr, hresp, rfl, rfl, rfl, hm⟩

/-- C10: when the envelope of an `application/json` request decodes to a review
with a request and the mutation rule returns an error on it, `serve` still
writes the prepared response: the UID of the request, `allowed = true`, no patch
and no patch type (the diff is not consulted: the result does not depend on
`getPatch`).  For `mutateClusterCNI` this is the case whenever the object bytes
do not deserialize as a cluster.  The serialization of the response is assumed
to succeed. -/
theorem serve_fail_open {β ρ : Type} (L : Lib β ρ) (req : Request β) (check : checkFn β)
    (body : β) (ar ar' : AdmissionReview β) (rq : AdmissionRequest β) (e : GoError)
    (hct : req.contentType = "application/json") (hb : req.body = some (.ok body))
    (hd : L.unmarshalReview body = .ok ar) (hr : ar.request = some rq)
    (hc : check ar = .ret (ar', some e))
    (henc : ∀ r, ∃ b, L.marshalReview r = .ok b) :
    (∃ r resp bytes, (serve L req check).written = some (r, bytes) ∧
      r.response = some resp ∧ resp.uid = rq.uid ∧ resp.allowed = true ∧
      resp.patch = none ∧ resp.patchType = none) ∧
    (serve L req check = finish L [ar] ar' (respReviewFor rq.uid)) ∧
    (∀ e', L.unmarshalCluster rq.object = .error e' →
      ∃ msg, mutateClusterCNI L ar = .ret (ar, some msg)) := by
  have hs : serve L req check = finish L [ar] ar' (respReviewFor rq.uid) := by
    rw [serve_decoded L req check body ar rq hct hb hd hr, hc]
  refine ⟨?_, hs, ?_⟩
  · obtain ⟨b, hm⟩ := henc (respReviewFor rq.uid)
    refine ⟨respReviewFor rq.uid, _, b, ?_, respReviewFor_response rq.uid, rfl, rfl, rfl, rfl⟩
    rw [hs]
    exact finish_written L _ _ _ _ hm
  · intro e' he
    refine ⟨"failed to parse request raw object", ?_⟩
    simp [mutateClusterCNI, hr, he]

/-- Witness of C10: object bytes that are a JSON array do not deserialize as a
cluster; the response is written all the same. -/
theorem serve_fail_open_witness :
    (∃ r resp bytes,
      (serve specLib (postOf (bodyOf "u1" (.arr []))) (mutateClusterCNI specLib)).written =
        some (r, bytes) ∧
      r.response = some resp ∧ resp.uid = "u1" ∧ resp.allowed = true ∧
      resp.patch = none ∧ resp.patchType = none) ∧
    (serve specLib (postOf (bodyOf "u1" (.arr []))) (mutateClusterCNI specLib) =
      finish specLib [reviewOf "u1" (.json (.arr []))] (reviewOf "u1" (.json (.arr [])))
        (respReviewFor "u1")) ∧
    (∀ e', specLib.unmarshalCluster (Doc.json (.arr [])) = .error e' →
      ∃ msg, mutateClusterCNI specLib (reviewOf "u1" (.json (.arr []))) =
        .ret (reviewOf "u1" (.json (.arr [])), some msg)) :=
  serve_fail_open specLib (postOf (bodyOf "u1" (.arr []))) (mutateClusterCNI specLib)
    (bodyOf "u1" (.arr [])) (reviewOf "u1" (.json (.arr []))) (reviewOf "u1" (.json (.arr [])))
    { uid := "u1", namespace_ := "", name := "", object := .json (.arr []) }
    "failed to parse request raw object" rfl rfl rfl rfl rfl (fun r => ⟨encodeReview r, rfl⟩)

/-- Witness of C6: the response written for the concrete scenario. -/
theorem serve_always_allows_witness :
    (serve specLib (postOf (bodyOf "u1" objBoth)) (mutateClusterCNI specLib)).written =
      some (respBoth, encodeReview respBoth) ∧
    ∃ body ar rq resp,
      (postOf (bodyOf "u1" objBoth)).body = some (.ok body) ∧
      specLib.unmarshalReview body = .ok ar ∧ ar.request = some rq ∧
      respBoth.response = some resp ∧ resp.uid = rq.uid ∧ resp.allowed = true ∧
      resp.result = some { status := "Success", message := "Request permitted", code := 200 } ∧
      specLib.marshalReview respBoth = .ok (encodeReview respBoth) :=
  ⟨rfl, serve_always_allows specLib (postOf (bodyOf "u1" objBoth)) (mutateClusterCNI specLib)
    respBoth (encodeReview respBoth) rfl⟩

/-- C9: `getPatch` attaches a patch exactly when the diff is non-empty.  When
the operation sequence `CreatePatch` computes between the object bytes of the
copy and of the updated review is empty, it returns no patch and no patch type;
when it is non-empty, it returns the serialized sequence together with the
patch type JSONPatch.  Hence in every response `serve` writes, patch and patch
type are both present or both absent, and a present patch type is JSONPatch. -/
theorem getPatch_attaches_iff_nonempty {β ρ : Type} (L : Lib β ρ) :
    (∀ (old updated : AdmissionReview β) (o u : AdmissionRequest β) (ops : List Operation),
      old.request = some o → updated.request = some u →
      L.createPatch o.object u.object = .ok ops →
      (ops = [] → getPatch L old updated = .ret (.ok (none, none))) ∧
      (ops ≠ [] → ∀ p, L.marshalPatch ops = .ok p →
        getPatch L old updated = .ret (.ok (some p, some PatchTypeJSONPatch)))) ∧
    (∀ (req : Request β) (check : checkFn β) (r : AdmissionReview β) (bytes : β)
      (resp : AdmissionResponse β),
      (serve L req check).written = some (r, bytes) → r.response = some resp →
      (resp.patch.isSome = resp.patchType.isSome) ∧
      (∀ t, resp.patchType = some t → t = PatchTypeJSONPatch)) := by
  constructor
  · intro old updated o u ops ho hu hd
    constructor
    · intro he
      subst he
      simp [getPatch, ho, hu, hd]
    · intro hne p hp
      have hlen : ¬ ops.length = 0 := by
        intro h0
        exact hne (List.length_eq_zero.mp h0)
      simp [getPatch, ho, hu, hd, hlen, hp]
  · intro req check r bytes resp h hresp
    obtain ⟨_, _, _, patch, pt, _, _, _, _, hr, hshape, _⟩ :=
      serve_written_inv L req check r bytes h
    rw [hr] at hresp
    cases hresp
    rcases hshape with ⟨h1, h2⟩ | ⟨p, h1, h2⟩
    · simp [h1, h2]
    · simp [h1, h2]

/-- Witness of C9: the diff of the concrete scenario is one operation, and
`getPatch` returns it serialized with the JSONPatch type. -/
theorem getPatch_attaches_iff_nonempty_witness :
    specLib.createPatch (Doc.json objBoth) (Doc.json mutatedBoth) = .ok patchBoth ∧
    getPatch specLib (reviewOf "u1" (.json objBoth)) (reviewOf "u1" (.json mutatedBoth)) =
      .ret (.ok (some (encodePatch patchBoth), some PatchTypeJSONPatch)) :=
  ⟨rfl, ((getPatch_attaches_iff_nonempty specLib).1 (reviewOf "u1" (.json objBoth))
    (reviewOf "u1" (.json mutatedBoth)) _ _ patchBoth rfl rfl rfl).2
      (by simp [patchBoth]) (encodePatch patchBoth) rfl⟩

/-- C1: when the envelope of an `application/json` request decodes, its object
deserializes as a cluster, and the cluster has neither the `hackaton-cni` nor
the `hackaton-cni-version` label set to a non-empty value, `mutateClusterCNI`
returns no error and leaves the review (so `Request.Object.Raw`) as it was, and
`serve` writes a response with `allowed = true`, no patch and no patch type.
The diff engine is assumed to return the empty sequence for the unchanged
object bytes, and the serialization of the response to succeed. -/
theorem serve_no_labels_no_patch {β ρ : Type} (L : Lib β ρ) (req : Request β)
    (body : β) (ar : AdmissionReview β) (rq : AdmissionRequest β) (c : Cluster ρ)
    (hct : req.contentType = "application/json") (hb : req.body = some (.ok body))
    (hd : L.unmarshalReview body = .ok ar) (hr : ar.request = some rq)
    (hc : L.unmarshalCluster rq.object = .ok c)
    (h1 : labelOf c.labels "hackaton-cni" = "")
    (h2 : labelOf c.labels "hackaton-cni-version" = "")
    (hdiff : L.createPatch rq.object rq.object = .ok [])
    (henc : ∀ r, ∃ b, L.marshalReview r = .ok b) :
    mutateClusterCNI L ar = .ret (ar, none) ∧
    ∃ r resp bytes, (serve L req (mutateClusterCNI L)).written = some (r, bytes) ∧
      r.response = some resp ∧ resp.uid = rq.uid ∧ resp.allowed = true ∧
      resp.patch = none ∧ resp.patchType = none := by
  have hm : mutateClusterCNI L ar = .ret (ar, none) := by
    simp [mutateClusterCNI, hr, hc, h1, h2]
  refine ⟨hm, ?_⟩
  have hg : getPatch L ar ar = .ret (.ok (none, none)) := by
    simp [getPatch, hr, hdiff]
  have hs : serve L req (mutateClusterCNI L) = finish L [ar] ar (respReviewFor rq.uid) := by
    rw [serve_decoded L req _ body ar rq hct hb hd hr, hm]
    simp only [hg]
    rfl
  obtain ⟨b, hmr⟩ := henc (respReviewFor rq.uid)
  refine ⟨respReviewFor rq.uid, _, b, ?_, respReviewFor_response rq.uid, rfl, rfl, rfl, rfl⟩
  rw [hs]
  exact finish_written L _ _ _ _ hmr

/-- Witness of C1: the object with `labels: {}`. -/
theorem serve_no_labels_no_patch_witness :
    mutateClusterCNI specLib (reviewOf "u1" (.json objNoLabels)) =
      .ret (reviewOf "u1" (.json objNoLabels), none) ∧
    ∃ r resp bytes,
      (serve specLib (postOf (bodyOf "u1" objNoLabels)) (mutateClusterCNI specLib)).written =
        some (r, bytes) ∧
      r.response = some resp ∧ resp.uid = "u1" ∧ resp.allowed = true ∧
      resp.patch = none ∧ resp.patchType = none :=
  serve_no_labels_no_patch specLib (postOf (bodyOf "u1" objNoLabels)) (bodyOf "u1" objNoLabels)
    (reviewOf "u1" (.json objNoLabels))
    { uid := "u1", namespace_ := "", name := "", object := .json objNoLabels }
    { labels := [], cniPlugin := none, rest := objNoLabels }
    rfl rfl rfl rfl rfl rfl rfl rfl (fun r => ⟨encodeReview r, rfl⟩)

/-- Counterexample to C7: on object bytes that spell no JSON value, and on
object bytes that spell a JSON array, `mutateClusterCNI` returns the error
`failed to parse request raw object`. -/
theorem mutateClusterCNI_fails_on_bad_object :
    mutateClusterCNI specLib (reviewOf "u1" Doc.invalid) =
      .ret (reviewOf "u1" Doc.invalid, some "failed to parse request raw object") ∧
    mutateClusterCNI specLib (reviewOf "u1" (.json (.arr []))) =
      .ret (reviewOf "u1" (.json (.arr [])), some "failed to parse request raw object") ∧
    ¬ (∀ (ar : AdmissionReview Doc) (rq : AdmissionRequest Doc), ar.request = some rq →
        ∃ ar', mutateClusterCNI specLib ar = .ret (ar', none)) := by
  refine ⟨rfl, rfl, ?_⟩
  intro h
  obtain ⟨ar', h'⟩ := h (reviewOf "u1" Doc.invalid) _ rfl
  have h0 : mutateClusterCNI specLib (reviewOf "u1" Doc.invalid) =
      .ret (reviewOf "u1" Doc.invalid, some "failed to parse request raw object") := rfl
  rw [h0] at h'
  simp at h'

/-- C7 as amended: `mutateClusterCNI` is total on reviews that carry a request
(it returns, it does not panic), and the error it returns is nil exactly when
the object bytes deserialize as a cluster and either neither label is set or
the cluster, with its plugin section replaced by the labels' type and version,
serializes again.  Missing labels are never an error. -/
theorem mutateClusterCNI_total {β ρ : Type} (L : Lib β ρ) (ar : AdmissionReview β)
    (rq : AdmissionRequest β) (hr : ar.request = some rq) :
    ∃ ar' err, mutateClusterCNI L ar = .ret (ar', err) ∧
      (err = none ↔ ∃ c, L.unmarshalCluster rq.object = .ok c ∧
        ((labelOf c.labels "hackaton-cni" = "" ∧ labelOf c.labels "hackaton-cni-version" = "") ∨
          ∃ raw, L.marshalCluster
            { c with cniPlugin := some ⟨labelOf c.labels "hackaton-cni",
                                        labelOf c.labels "hackaton-cni-version"⟩ } = .ok raw)) := by
  cases hc : L.unmarshalCluster rq.object with
  | error e =>
    exact ⟨ar, some "failed to parse request raw object",
      mutateClusterCNI_undecodable L ar rq e hr hc, by simp⟩
  | ok c =>
    rw [mutateClusterCNI_decoded L ar rq c hr hc]
    by_cases h : labelOf c.labels "hackaton-cni" = "" ∧
        labelOf c.labels "hackaton-cni-version" = ""
    · exact ⟨ar, none, by rw [if_pos h], by simp [h]⟩
    · rw [if_neg h]
      cases hm : L.marshalCluster
          { c with cniPlugin := some ⟨labelOf c.labels "hackaton-cni",
                                      labelOf c.labels "hackaton-cni-version"⟩ } with
      | error e => exact ⟨_, _, rfl, by simp [h, hm]⟩
      | ok raw => exact ⟨_, _, rfl, by simp [hm]⟩

/-- Witness of the amended C7, on the object of the concrete scenario. -/
theorem mutateClusterCNI_total_witness :
    ∃ ar' err, mutateClusterCNI specLib (reviewOf "u1" (.json objBoth)) = .ret (ar', err) ∧
      (err = none ↔ ∃ c, specLib.unmarshalCluster (Doc.json objBoth) = .ok c ∧
        ((labelOf c.labels "hackaton-cni" = "" ∧ labelOf c.labels "hackaton-cni-version" = "") ∨
          ∃ raw, specLib.marshalCluster
            { c with cniPlugin := some ⟨labelOf c.labels "hackaton-cni",
                                        labelOf c.labels "hackaton-cni-version"⟩ } = .ok raw)) :=
  mutateClusterCNI_total specLib (reviewOf "u1" (.json objBoth))
    { uid := "u1", namespace_ := "", name := "", object := .json objBoth } rfl

/-- C3, evaluated at the failing input: the object carries only the
`hackaton-cni` label (`calico`) and a plugin section of type `canal` and version
`v3.19`.  The object `mutateClusterCNI` writes back has the version emptied and
the patch replaces the version, so the version of the mutated object does not
always equal the version of the original. -/
theorem type_only_resets_version :
    decodeCluster (.json objTypeOnly) =
      .ok { labels := [("hackaton-cni", "calico")],
            cniPlugin := some { type := "canal", version := "v3.19" },
            rest := objTypeOnly } ∧
    mutateClusterCNI specLib (reviewOf "u1" (.json objTypeOnly)) =
      .ret (reviewOf "u1" (.json mutatedTypeOnly), none) ∧
    decodeCluster (.json mutatedTypeOnly) =
      .ok { labels := [("hackaton-cni", "calico")],
            cniPlugin := some { type := "calico", version := "" },
            rest := mutatedTypeOnly } ∧
    createPatch (.json objTypeOnly) (.json mutatedTypeOnly) =
      .ok [{ op := .replace, path := ["spec", "cniPlugin", "type"], value := some (.str "calico") },
           { op := .replace, path := ["spec", "cniPlugin", "version"], value := some (.str "") }] ∧
    ¬ (∀ (orig mutated : Json) (c c' : Cluster Json) (p p' : CNIPluginSettings),
        decodeCluster (.json orig) = .ok c →
        labelOf c.labels "hackaton-cni" ≠ "" →
        labelOf c.labels "hackaton-cni-version" = "" →
        mutateClusterCNI specLib (reviewOf "u1" (.json orig)) =
          .ret (reviewOf "u1" (.json mutated), none) →
        decodeCluster (.json mutated) = .ok c' →
        c.cniPlugin = some p → c'.cniPlugin = some p' → p'.version = p.version) := by
  refine ⟨rfl, rfl, rfl, rfl, ?_⟩
  intro h
  have h' := h objTypeOnly mutatedTypeOnly
    { labels := [("hackaton-cni", "calico")],
      cniPlugin := some { type := "canal", version := "v3.19" },
      rest := objTypeOnly }
    { labels := [("hackaton-cni", "calico")],
      cniPlugin := some { type := "calico", version := "" },
      rest := mutatedTypeOnly }
    { type := "canal", version := "v3.19" } { type := "calico", version := "" }
    rfl (by decide) rfl rfl rfl rfl rfl
  simp at h'

/-- Counterexample to C5: the body is valid JSON with a `request` section that
has neither a request identifier nor object bytes.  Decoding succeeds with the
zero values, and `serve` writes a response with the empty UID. -/
theorem serve_answers_bare_request :
    decodeReview bodyBare =
      .ok { kind := "", apiVersion := "",
            request := some { uid := "", namespace_ := "", name := "", object := Doc.invalid },
            response := none } ∧
    (serve specLib (postOf bodyBare) (mutateClusterCNI specLib)).written =
      some (respReviewFor "", encodeReview (respReviewFor "")) ∧
    (serve specLib (postOf bodyBare) (mutateClusterCNI specLib)).written ≠ none :=
  ⟨rfl, rfl, by
    have h : (serve specLib (postOf bodyBare) (mutateClusterCNI specLib)).written =
        some (respReviewFor "", encodeReview (respReviewFor "")) := rfl
    rw [h]
    simp⟩

/-- C5 as amended: `serve` requires no envelope field.  For every body that
`json.Unmarshal` accepts with a request section, whatever the request identifier
(the empty one included) and the object bytes (nil included), `serve` calls the
mutation rule on the decoded review; and when the object bytes do not
deserialize as a cluster, as nil bytes do not, it writes a response with the
decoded UID, `allowed = true`, no patch and no patch type.  (The serialization
of the response is assumed to succeed.) -/
theorem serve_requires_no_field {β ρ : Type} (L : Lib β ρ) (req : Request β) (body : β)
    (ar : AdmissionReview β) (rq : AdmissionRequest β)
    (hct : req.contentType = "application/json") (hb : req.body = some (.ok body))
    (hd : L.unmarshalReview body = .ok ar) (hr : ar.request = some rq)
    (henc : ∀ r, ∃ b, L.marshalReview r = .ok b) :
    (serve L req (mutateClusterCNI L)).checkCalls = [ar] ∧
    (∀ e, L.unmarshalCluster rq.object = .error e →
      ∃ r resp bytes, (serve L req (mutateClusterCNI L)).written = some (r, bytes) ∧
        r.response = some resp ∧ resp.uid = rq.uid ∧ resp.allowed = true ∧
        resp.patch = none ∧ resp.patchType = none) := by
  refine ⟨serve_checkCalls L req _ body ar rq hct hb hd hr, ?_⟩
  intro e he
  have hs := serve_decoded L req (mutateClusterCNI L) body ar rq hct hb hd hr
  rw [mutateClusterCNI_undecodable L ar rq e hr he] at hs
  obtain ⟨b, hm⟩ := henc (respReviewFor rq.uid)
  refine ⟨respReviewFor rq.uid, _, b, ?_, respReviewFor_response rq.uid, rfl, rfl, rfl, rfl⟩
  rw [hs]
  exact finish_written L _ _ _ _ hm

/-- Witness of the amended C5, on the body of the counterexample. -/
theorem serve_requires_no_field_witness :
    (serve specLib (postOf bodyBare) (mutateClusterCNI specLib)).checkCalls =
      [{ kind := "", apiVersion := "", request := some zeroRequest, response := none }] ∧
    (∀ e, specLib.unmarshalCluster zeroRequest.object = .error e →
      ∃ r resp bytes,
        (serve specLib (postOf bodyBare) (mutateClusterCNI specLib)).written =
          some (r, bytes) ∧
        r.response = some resp ∧ resp.uid = zeroRequest.uid ∧ resp.allowed = true ∧
        resp.patch = none ∧ resp.patchType = none) :=
  serve_requires_no_field specLib (postOf bodyBare) bodyBare
    { kind := "", apiVersion := "", request := some zeroRequest, response := none }
    zeroRequest rfl rfl rfl rfl (fun r => ⟨encodeReview r, rfl⟩)

/-- C2: when the object of a decoded `application/json` request deserializes as
a cluster whose labels carry non-empty values `X` for `hackaton-cni` and `V` for
`hackaton-cni-version`, and the `spec` section of the object has no `cniPlugin`
member, `serve` writes a response with the UID of the request, `allowed = true`,
patch type JSONPatch, and a patch that is exactly the single operation `add` at
`/spec/cniPlugin` with value `{type: X, version: V}`.  (Cluster codec and diff
engine as modelled from the specification; `V` need not even be non-empty.) -/
theorem serve_both_labels_single_add (req : Request Doc) (body : Doc)
    (ar : AdmissionReview Doc) (rq : AdmissionRequest Doc) (fs ss : Fields)
    (c : Cluster Json) (X V : String)
    (hct : req.contentType = "application/json") (hb : req.body = some (.ok body))
    (hd : decodeReview body = .ok ar) (hr : ar.request = some rq)
    (hobj : rq.object = .json (.obj fs))
    (hc : decodeCluster (.json (.obj fs)) = .ok c)
    (hX : labelOf c.labels "hackaton-cni" = X) (hXne : X ≠ "")
    (hV : labelOf c.labels "hackaton-cni-version" = V)
    (hspec : lookup "spec" fs = some (.obj ss)) (hno : lookup "cniPlugin" ss = none) :
    ∃ r resp, (serve specLib req (mutateClusterCNI specLib)).written =
        some (r, encodeReview r) ∧
      r.response = some resp ∧ resp.uid = rq.uid ∧ resp.allowed = true ∧
      resp.patchType = some PatchTypeJSONPatch ∧
      resp.patch = some (encodePatch
        [{ op := .add, path := ["spec", "cniPlugin"],
           value := some (.obj [("type", .str X), ("version", .str V)]) }]) := by
  obtain ⟨fs', hfs', hcan, hrest⟩ := decodeCluster_ok _ _ hc
  cases hfs'
  obtain ⟨ss0, _, hss0, henc, hcan'⟩ := encodeCluster_some c.labels ⟨X, V⟩ fs hcan
  have he := hss0 ss hspec
  subst he
  have hcl : ({ c with cniPlugin := some ⟨labelOf c.labels "hackaton-cni",
      labelOf c.labels "hackaton-cni-version"⟩ } : Cluster Json) =
      { labels := c.labels, cniPlugin := some ⟨X, V⟩, rest := .obj fs } := by
    rw [hX, hV, hrest]
  have hcan1 : Json.canonical (.obj fs) = true := by
    rw [Json.canonical]
    exact hcan
  have hdiff : diff (.obj fs)
      (.obj (put "spec" (.obj (put "cniPlugin" (encodePlugin ⟨X, V⟩) ss0)) fs)) =
      [{ op := .add, path := ["spec", "cniPlugin"],
         value := some (.obj [("type", .str X), ("version", .str V)]) }] := by
    rw [diff, diffFields_put_present fs "spec" (.obj ss0) _
      (canonicalFields_ascending fs hcan) hspec, diff,
      diffFields_put_absent ss0 "cniPlugin" _ hno]
    rfl
  have hcp : createPatch (.json (.obj fs))
      (.json (.obj (put "spec" (.obj (put "cniPlugin" (encodePlugin ⟨X, V⟩) ss0)) fs))) =
      .ok [{ op := .add, path := ["spec", "cniPlugin"],
             value := some (.obj [("type", .str X), ("version", .str V)]) }] := by
    simp only [createPatch, hcan1, hcan', Bool.and_self, if_true, hdiff]
  have hl : ¬ (labelOf c.labels "hackaton-cni" = "" ∧
      labelOf c.labels "hackaton-cni-version" = "") := by
    rw [hX]
    exact fun h => hXne h.1
  obtain ⟨_, r, resp, hw, h1, h2, h3, h4, h5⟩ :=
    serve_spec_mutated req body ar rq _ _ c _ hct hb hd hr hobj hc hl (hcl ▸ henc) hcp
  exact ⟨r, resp, hw, h1, h2, h3, h5, h4⟩

/-- Witness of C2: the concrete scenario, labels `calico` and `v3.1` with an
empty `spec`. -/
theorem serve_both_labels_single_add_witness :
    ∃ r resp,
      (serve specLib (postOf (bodyOf "u1" objBoth)) (mutateClusterCNI specLib)).written =
        some (r, encodeReview r) ∧
      r.response = some resp ∧ resp.uid = "u1" ∧ resp.allowed = true ∧
      resp.patchType = some PatchTypeJSONPatch ∧
      resp.patch = some (encodePatch
        [{ op := .add, path := ["spec", "cniPlugin"],
           value := some (.obj [("type", .str "calico"), ("version", .str "v3.1")]) }]) :=
  serve_both_labels_single_add (postOf (bodyOf "u1" objBoth)) (bodyOf "u1" objBoth)
    (reviewOf "u1" (.json objBoth))
    { uid := "u1", namespace_ := "", name := "", object := .json objBoth }
    [("metadata", .obj [("labels", .obj [("hackaton-cni", .str "calico"),
        ("hackaton-cni-version", .str "v3.1")])]),
     ("spec", .obj [])] []
    { labels := [("hackaton-cni", "calico"), ("hackaton-cni-version", "v3.1")],
      cniPlugin := none, rest := objBoth }
    "calico" "v3.1" rfl rfl rfl rfl rfl rfl rfl (by decide) rfl rfl rfl

/-- C8: for every object that deserializes as a cluster with at least one of
the two labels set (so that the mutation rule re-serializes it), the response
of `serve` carries the serialized diff `ops` between the original object and
the mutated object `mutateClusterCNI` serialized (no patch when `ops` is empty),
applying `ops` to the original object gives exactly that mutated object, and
diffing the result of the application against the original gives `ops` again.
(Cluster codec and diff engine as modelled from the specification.) -/
theorem patch_roundtrip (req : Request Doc) (body : Doc) (ar : AdmissionReview Doc)
    (rq : AdmissionRequest Doc) (orig : Json) (c : Cluster Json)
    (hct : req.contentType = "application/json") (hb : req.body = some (.ok body))
    (hd : decodeReview body = .ok ar) (hr : ar.request = some rq)
    (hobj : rq.object = .json orig) (hc : decodeCluster (.json orig) = .ok c)
    (hl : ¬ (labelOf c.labels "hackaton-cni" = "" ∧
      labelOf c.labels "hackaton-cni-version" = "")) :
    ∃ mutated ops r resp,
      mutateClusterCNI specLib ar =
        .ret ({ ar with request := some { rq with object := .json mutated } }, none) ∧
      createPatch (.json orig) (.json mutated) = .ok ops ∧
      (serve specLib req (mutateClusterCNI specLib)).written = some (r, encodeReview r) ∧
      r.response = some resp ∧
      resp.patch = (if ops.isEmpty then none else some (encodePatch ops)) ∧
      applyPatch ops orig = some mutated ∧
      (∀ res, applyPatch ops orig = some res →
        createPatch (.json orig) (.json res) = .ok ops) := by
  obtain ⟨fs, hfs, hcan, hrest⟩ := decodeCluster_ok _ _ hc
  simp only [Doc.json.injEq] at hfs
  subst hfs
  obtain ⟨ss, _, _, henc, hcan'⟩ := encodeCluster_some c.labels
    ⟨labelOf c.labels "hackaton-cni", labelOf c.labels "hackaton-cni-version"⟩ fs hcan
  have hcl : ({ c with cniPlugin := some ⟨labelOf c.labels "hackaton-cni",
      labelOf c.labels "hackaton-cni-version"⟩ } : Cluster Json) =
      { labels := c.labels,
        cniPlugin := some ⟨labelOf c.labels "hackaton-cni",
                           labelOf c.labels "hackaton-cni-version"⟩,
        rest := .obj fs } := by
    rw [hrest]
  have hcan1 : Json.canonical (.obj fs) = true := by
    rw [Json.canonical]
    exact hcan
  have hcp : ∀ m, Json.canonical m = true →
      createPatch (.json (.obj fs)) (.json m) = .ok (diff (.obj fs) m) := by
    intro m hm
    simp only [createPatch, hcan1, hm, Bool.and_self, if_true]
  obtain ⟨hm, r, resp, hw, h1, _, _, h4, _⟩ :=
    serve_spec_mutated req body ar rq _ _ c _ hct hb hd hr hobj hc hl (hcl ▸ henc)
      (hcp _ hcan')
  have happ := diff_apply (.obj fs) _ hcan1 hcan'
  refine ⟨_, _, r, resp, hm, hcp _ hcan', hw, h1, h4, happ, ?_⟩
  intro res hres
  rw [happ] at hres
  cases hres
  exact hcp _ hcan'

/-- Witness of C8: the object with only the plugin-type label and an existing
plugin section, whose patch replaces both the type and the version. -/
theorem patch_roundtrip_witness :
    ∃ mutated ops r resp,
      mutateClusterCNI specLib (reviewOf "u1" (.json objTypeOnly)) =
        .ret ({ reviewOf "u1" (.json objTypeOnly) with
                request := some { uid := "u1", namespace_ := "", name := "",
                                  object := .json mutated } }, none) ∧
      createPatch (.json objTypeOnly) (.json mutated) = .ok ops ∧
      (serve specLib (postOf (bodyOf "u1" objTypeOnly)) (mutateClusterCNI specLib)).written =
        some (r, encodeReview r) ∧
      r.response = some resp ∧
      resp.patch = (if ops.isEmpty then none else some (encodePatch ops)) ∧
      applyPatch ops objTypeOnly = some mutated ∧
      (∀ res, applyPatch ops objTypeOnly = some res →
        createPatch (.json objTypeOnly) (.json res) = .ok ops) :=
  patch_roundtrip (postOf (bodyOf "u1" objTypeOnly)) (bodyOf "u1" objTypeOnly)
    (reviewOf "u1" (.json objTypeOnly))
    { uid := "u1", namespace_ := "", name := "", object := .json objTypeOnly }
    objTypeOnly
    { labels := [("hackaton-cni", "calico")],
      cniPlugin := some { type := "canal", version := "v3.19" },
      rest := objTypeOnly }
    rfl rfl rfl rfl rfl rfl (by decide)


end ClusterCNI
